import Mathlib

set_option maxRecDepth 4000

/-!
Shallow embedding of the logseq-copy-as-markdown core: the tokenizer
(logseq-parser), the three token generators (markdown, asciidoc, html) and
the three tree converters (MarkdownConverter, AsciiDocConverter,
HtmlConverter).  Text is modelled as `List Char`; JavaScript regular
expressions are modelled by explicit character scanning with the same
greedy/lazy and backtracking behaviour, documented at each definition.
-/

/-- Character constants written via code points to keep the source free of
delicate literals. -/
def backtickC : Char := Char.ofNat 96

def lbraceC : Char := Char.ofNat 123

def rbraceC : Char := Char.ofNat 125

def quotC : Char := Char.ofNat 34

def aposC : Char := Char.ofNat 39

/-- JavaScript `\s` for the characters that occur in this code base:
space, tab, newline, carriage return, vertical tab, form feed, NBSP. -/
def isWsJS (c : Char) : Bool :=
  c == ' ' || c == '\t' || c == '\n' || c == '\r' ||
  c == Char.ofNat 11 || c == Char.ofNat 12 || c == Char.ofNat 160

/-- JavaScript `\w`: ASCII letters, digits and underscore. -/
def isWordChar (c : Char) : Bool := c.isAlphanum || c == '_'

/-- Character class `[a-zA-Z0-9_-]` used for tags. -/
def isTagChar (c : Char) : Bool := c.isAlphanum || c == '-' || c == '_'

/-- Concatenation of the images of `f`, i.e. JavaScript
`list.map(f).join('')`. -/
def listJoinMap (f : α → List β) : List α → List β
  | [] => []
  | a :: l => f a ++ listJoinMap f l

/-- JavaScript `s.startsWith(p)` / an anchored `^p` literal match. -/
def strStarts (p : String) (l : List Char) : Bool := p.data.isPrefixOf l

/-- Index of the first occurrence of the literal substring `pat`
(JavaScript `s.search(/pat/)` for a literal pattern, `s.includes(pat)`). -/
def findSubIdx (pat : List Char) : List Char → Option Nat
  | [] => if pat.isPrefixOf ([] : List Char) then some 0 else none
  | c :: tl =>
    if pat.isPrefixOf (c :: tl) then some 0
    else (findSubIdx pat tl).map (· + 1)

/-- JavaScript `s.includes(pat)`. -/
def containsSub (pat hay : List Char) : Bool := (findSubIdx pat hay).isSome

/-- Index of the first character satisfying `p` (JavaScript
`s.search(/[class]/)`). -/
def findCharIdx (p : Char → Bool) : List Char → Option Nat
  | [] => none
  | c :: tl => if p c then some 0 else (findCharIdx p tl).map (· + 1)

/-- Index of the first position where `https?:\/\/` matches
(JavaScript `s.search(/https?:\/\//)`). -/
def findUrlIdx : List Char → Option Nat
  | [] => none
  | c :: tl =>
    if strStarts ("http://") (c :: tl) || strStarts ("https://") (c :: tl) then some 0
    else (findUrlIdx tl).map (· + 1)

/-- JavaScript `s.split('\n')` (keeps empty segments, never empty). -/
def splitNl : List Char → List (List Char)
  | [] => [[]]
  | c :: tl =>
    if c == '\n' then [] :: splitNl tl
    else
      match splitNl tl with
      | h :: t => (c :: h) :: t
      | [] => [[c]]

/-- JavaScript `lines.join('\n')`. -/
def joinNl (ls : List (List Char)) : List Char := List.intercalate ['\n'] ls

/-- JavaScript `s.trim()`. -/
def jsTrim (l : List Char) : List Char :=
  ((l.dropWhile isWsJS).reverse.dropWhile isWsJS).reverse

/-- JavaScript `s.replace(/c/g, rep)` for a single-character pattern. -/
def replaceAllChar (c : Char) (rep : List Char) : List Char → List Char
  | [] => []
  | a :: l => (if a == c then rep else [a]) ++ replaceAllChar c rep l

/-- JavaScript `a || b` on strings (empty string is falsy). -/
def jsOrStr (a b : List Char) : List Char := if a.isEmpty then b else a

/-- Truthiness of an optional string (`undefined` and `''` are falsy). -/
def truthyOpt (o : Option (List Char)) : Bool :=
  match o with
  | some s => !s.isEmpty
  | none => false

/-- The token kinds of the Token model (`TokenType` in types.ts). -/
inductive TokType
  | text | blockRef | markdownLink | nakedUrl | image | videoEmbed | tag
  | highlight | bold | codeBlock | query | taskMarker | blockquote
deriving DecidableEq

/-- The five task-marker keywords. -/
inductive TaskKind
  | todo | done | doing | later | now
deriving DecidableEq

/-- Video services distinguished by the parser. -/
inductive VideoKind
  | youtube | vimeo | other
deriving DecidableEq

/-- One token (`Token` in types.ts); `length` is `match[0].length`, the
number of source characters covered. Metadata fields absent in JavaScript
are `none`. -/
structure Token where
  type : TokType
  value : List Char
  language : Option (List Char) := none
  taskType : Option TaskKind := none
  linkText : Option (List Char) := none
  linkTarget : Option (List Char) := none
  altText : Option (List Char) := none
  videoType : Option VideoKind := none
  videoId : Option (List Char) := none
  isExternalUrl : Option Bool := none
  length : Nat
deriving DecidableEq

/-- LogseqParser.tryMatchCodeBlock: regex `^(three backticks)(\w+)?\n([\s\S]*?)(three backticks)`.
The optional `\w+` is a greedy word run; since word characters are not
newlines, the regex matches exactly when the maximal word run after the
fence is followed by a newline.  The lazy body ends at the earliest
closing fence. -/
def tryMatchCodeBlock (rem : List Char) : Option Token :=
  if strStarts ("```") rem then
    let rest := rem.drop 3
    let lang := rest.takeWhile isWordChar
    let rest2 := rest.drop lang.length
    match rest2 with
    | c :: rest3 =>
      if c == '\n' then
        match findSubIdx (("```").data) rest3 with
        | some i =>
          some { type := .codeBlock, value := rest3.take i,
                 language := some lang,
                 length := 3 + lang.length + 1 + i + 3 }
        | none => none
      else none
    | [] => none
  else none

/-- Shared scanner for the `((two braces))kw\s+([^(rbrace)]+)(two braces)`
macro regexes.  `\s+` is greedy; if the maximal whitespace run leaves the
capture empty (i.e. a brace follows), the regex backtracks exactly one
whitespace character into the capture, which then needs the closing braces
right away.  Returns the capture and the full match length. -/
def curlyCapture (kw : String) (rem : List Char) : Option (List Char × Nat) :=
  if (lbraceC :: lbraceC :: kw.data).isPrefixOf rem then
    let rest := rem.drop (2 + kw.data.length)
    let ws := rest.takeWhile isWsJS
    let rest2 := rest.drop ws.length
    if ws.length == 0 then none
    else
      let cap0 := rest2.takeWhile (fun c => c != rbraceC)
      if cap0.isEmpty then
        if 2 ≤ ws.length && (rbraceC :: rbraceC :: []).isPrefixOf rest2 then
          some ([ws.getLastD ' '], 2 + kw.data.length + ws.length + 2)
        else none
      else
        if (rbraceC :: rbraceC :: []).isPrefixOf (rest2.drop cap0.length) then
          some (cap0, 2 + kw.data.length + ws.length + cap0.length + 2)
        else none
  else none

/-- LogseqParser.detectVideoType. -/
def detectVideoType (url : List Char) : VideoKind :=
  if containsSub (("youtube.com").data) url || containsSub (("youtu.be").data) url then
    .youtube
  else if containsSub (("vimeo.com").data) url then .vimeo
  else .other

/-- Scan of `(?:youtube\.com\/watch\?v=|youtu\.be\/)([^&?]+)`: at each
position the first alternative is tried before the second; a position where
the prefix matches but the capture would be empty is skipped, as the regex
engine moves on. -/
def ytScan : List Char → Option (List Char)
  | [] => none
  | c :: tl =>
    let a1 :=
      if strStarts ("youtube.com/watch?v=") (c :: tl) then
        let cap := ((c :: tl).drop 20).takeWhile (fun ch => ch != '&' && ch != '?')
        if cap.isEmpty then none else some cap
      else none
    match a1 with
    | some r => some r
    | none =>
      let a2 :=
        if strStarts ("youtu.be/") (c :: tl) then
          let cap := ((c :: tl).drop 9).takeWhile (fun ch => ch != '&' && ch != '?')
          if cap.isEmpty then none else some cap
        else none
      match a2 with
      | some r => some r
      | none => ytScan tl

/-- Scan of `vimeo\.com\/(\d+)`. -/
def vimeoScan : List Char → Option (List Char)
  | [] => none
  | c :: tl =>
    if strStarts ("vimeo.com/") (c :: tl) then
      let cap := ((c :: tl).drop 10).takeWhile Char.isDigit
      if cap.isEmpty then vimeoScan tl else some cap
    else vimeoScan tl

/-- LogseqParser.extractVideoId. -/
def extractVideoId (url : List Char) (t : VideoKind) : Option (List Char) :=
  match t with
  | .youtube => ytScan url
  | .vimeo => vimeoScan url
  | .other => none

/-- Capture of `[^(rbrace)]+` extending strictly past a scheme of
`schemeLen` characters, followed by the two closing braces. -/
def urlCapture (schemeLen : Nat) (rest2 : List Char) : Option (List Char) :=
  let url := rest2.takeWhile (fun c => c != rbraceC)
  if url.length ≤ schemeLen then none
  else if (rbraceC :: rbraceC :: []).isPrefixOf (rest2.drop url.length) then some url
  else none

/-- Capture of `https?:\/\/[^(rbrace)]+` followed by the closing braces:
the alternative with the `s` is preferred, and the brace-free run must
extend strictly past the scheme. -/
def schemeUrlCapture (rest2 : List Char) : Option (List Char) :=
  if strStarts ("https://") rest2 then urlCapture 8 rest2
  else if strStarts ("http://") rest2 then urlCapture 7 rest2
  else none

/-- The `((two braces))video\s+(https?:\/\/[^(rbrace)]+)(two braces)` macro.
The capture must start with a URL scheme, so only the maximal whitespace
run can precede it. -/
def tryMatchVideoUrl (rem : List Char) : Option Token :=
  if (lbraceC :: lbraceC :: ("video").data).isPrefixOf rem then
    let rest := rem.drop 7
    let ws := rest.takeWhile isWsJS
    let rest2 := rest.drop ws.length
    if ws.length == 0 then none
    else
      (schemeUrlCapture rest2).map fun url =>
        let vt := detectVideoType url
        { type := .videoEmbed, value := url, linkTarget := some url,
          videoType := some vt, videoId := extractVideoId url vt,
          length := 2 + 5 + ws.length + url.length + 2 }
  else none

/-- The `((two braces))youtube ID(two braces)` macro. -/
def tryMatchYoutube (rem : List Char) : Option Token :=
  (curlyCapture ("youtube") rem).map fun (cap, n) =>
    let vid := jsTrim cap
    let url := ("https://www.youtube.com/watch?v=").data ++ vid
    { type := .videoEmbed, value := url, linkTarget := some url,
      videoType := some .youtube, videoId := some vid, length := n }

/-- The `((two braces))vimeo ID(two braces)` macro. -/
def tryMatchVimeo (rem : List Char) : Option Token :=
  (curlyCapture ("vimeo") rem).map fun (cap, n) =>
    let vid := jsTrim cap
    let url := ("https://vimeo.com/").data ++ vid
    { type := .videoEmbed, value := url, linkTarget := some url,
      videoType := some .vimeo, videoId := some vid, length := n }

/-- LogseqParser.tryMatchQuery: video embeds first, then the query macro. -/
def tryMatchQuery (rem : List Char) : Option Token :=
  match tryMatchVideoUrl rem with
  | some t => some t
  | none =>
    match tryMatchYoutube rem with
    | some t => some t
    | none =>
      match tryMatchVimeo rem with
      | some t => some t
      | none =>
        (curlyCapture ("query") rem).map fun (cap, n) =>
          { type := .query, value := cap, length := n }

/-- One alternative of the `^(TODO|DONE|DOING|LATER|NOW)\s+` task regex:
keyword followed by at least one whitespace character (greedy run). -/
def taskAttempt (kw : String) (k : TaskKind) (rem : List Char) : Option Token :=
  if kw.data.isPrefixOf rem then
    let ws := (rem.drop kw.data.length).takeWhile isWsJS
    if ws.isEmpty then none
    else some { type := .taskMarker, value := [], taskType := some k,
                length := kw.data.length + ws.length }
  else none

/-- The five task alternatives in regex order. -/
def taskChain (rem : List Char) : Option Token :=
  match taskAttempt ("TODO") TaskKind.todo rem with
  | some t => some t
  | none =>
    match taskAttempt ("DONE") TaskKind.done rem with
    | some t => some t
    | none =>
      match taskAttempt ("DOING") TaskKind.doing rem with
      | some t => some t
      | none =>
        match taskAttempt ("LATER") TaskKind.later rem with
        | some t => some t
        | none => taskAttempt ("NOW") TaskKind.now rem

/-- LogseqParser.tryMatchTaskMarker (only at start of content or after a
line break, which the caller passes as `atStart`). -/
def tryMatchTaskMarker (atStart : Bool) (rem : List Char) : Option Token :=
  if atStart then taskChain rem else none

/-- LogseqParser.tryMatchBlockquote: regex `^> ?(.*)` at line start; `.`
does not match newlines, so the value is the rest of the line. -/
def tryMatchBlockquote (atStart : Bool) (rem : List Char) : Option Token :=
  if atStart then
    match rem with
    | '>' :: rest =>
      let hasSp : Bool := rest.head? == some ' '
      let rest2 := if hasSp then rest.drop 1 else rest
      let v := rest2.takeWhile (fun c => c != '\n')
      some { type := .blockquote, value := v,
             length := 1 + (if hasSp then 1 else 0) + v.length }
    | _ => none
  else none

/-- LogseqParser.tryMatchImage: regex `^!\[([^\]]*)\]\(([^)]+)\)`. -/
def tryMatchImage (rem : List Char) : Option Token :=
  match rem with
  | '!' :: '[' :: rest =>
    let alt := rest.takeWhile (fun c => c != ']')
    (match rest.drop alt.length with
     | ']' :: '(' :: rest3 =>
       let src := rest3.takeWhile (fun c => c != ')')
       if src.isEmpty then none
       else
         match rest3.drop src.length with
         | ')' :: _ =>
           some { type := .image, value := alt, altText := some alt,
                  linkTarget := some src,
                  isExternalUrl := some (strStarts ("http://") src || strStarts ("https://") src),
                  length := 2 + alt.length + 2 + src.length + 1 }
         | _ => none
     | _ => none)
  | _ => none

/-- LogseqParser.tryMatchMarkdownLink: regex `^\[([^\]]+)\]\(([^)]+)\)`. -/
def tryMatchMarkdownLink (rem : List Char) : Option Token :=
  match rem with
  | '[' :: rest =>
    let txt := rest.takeWhile (fun c => c != ']')
    if txt.isEmpty then none
    else
      match rest.drop txt.length with
      | ']' :: '(' :: rest3 =>
        let src := rest3.takeWhile (fun c => c != ')')
        if src.isEmpty then none
        else
          match rest3.drop src.length with
          | ')' :: _ =>
            some { type := .markdownLink, value := txt, linkText := some txt,
                   linkTarget := some src,
                   isExternalUrl := some (strStarts ("http://") src || strStarts ("https://") src),
                   length := 1 + txt.length + 2 + src.length + 1 }
          | _ => none
      | _ => none
  | _ => none

/-- LogseqParser.tryMatchBlockRef: regex `^\[\[([^\]]+)\]\]`. -/
def tryMatchBlockRef (rem : List Char) : Option Token :=
  match rem with
  | '[' :: '[' :: rest =>
    let name := rest.takeWhile (fun c => c != ']')
    if name.isEmpty then none
    else
      match rest.drop name.length with
      | ']' :: ']' :: _ =>
        some { type := .blockRef, value := name, linkTarget := some name,
               length := 2 + name.length + 2 }
      | _ => none
  | _ => none

/-- Body of the naked-URL match after a scheme of `schemeLen` characters:
the `[^\s)\]]+` run must be nonempty; the capture is the scheme plus the
run. -/
def nakedBody (schemeLen : Nat) (rem : List Char) : Option Token :=
  let body := (rem.drop schemeLen).takeWhile
    (fun c => !isWsJS c && c != ')' && c != ']')
  if body.isEmpty then none
  else
    let v := rem.take (schemeLen + body.length)
    some { type := .nakedUrl, value := v, linkTarget := some v,
           isExternalUrl := some true, length := schemeLen + body.length }

/-- LogseqParser.tryMatchNakedUrl: regex `^(https?:\/\/[^\s)\]]+)` (the
alternative with the `s` is preferred). -/
def tryMatchNakedUrl (rem : List Char) : Option Token :=
  if strStarts ("https://") rem then nakedBody 8 rem
  else if strStarts ("http://") rem then nakedBody 7 rem
  else none

/-- LogseqParser.tryMatchHighlight: regex `^==([^=]+)==`. -/
def tryMatchHighlight (rem : List Char) : Option Token :=
  match rem with
  | '=' :: '=' :: rest =>
    let inner := rest.takeWhile (fun c => c != '=')
    if inner.isEmpty then none
    else
      match rest.drop inner.length with
      | '=' :: '=' :: _ =>
        some { type := .highlight, value := inner,
               length := 2 + inner.length + 2 }
      | _ => none
  | _ => none

/-- LogseqParser.tryMatchBold: regex `^\*\*([^*]+)\*\*`. -/
def tryMatchBold (rem : List Char) : Option Token :=
  match rem with
  | '*' :: '*' :: rest =>
    let inner := rest.takeWhile (fun c => c != '*')
    if inner.isEmpty then none
    else
      match rest.drop inner.length with
      | '*' :: '*' :: _ =>
        some { type := .bold, value := inner,
               length := 2 + inner.length + 2 }
      | _ => none
  | _ => none

/-- LogseqParser.tryMatchTag: regex `^#([a-zA-Z0-9_-]+)`. -/
def tryMatchTag (rem : List Char) : Option Token :=
  match rem with
  | '#' :: rest =>
    let name := rest.takeWhile isTagChar
    if name.isEmpty then none
    else some { type := .tag, value := name, length := 1 + name.length }
  | _ => none

/-- Characters that can start one of the higher-priority tokens
(the class `[\[#=*(backtick)(lbrace)!]` of matchText). -/
def textSpecial (c : Char) : Bool :=
  c == '[' || c == '#' || c == '=' || c == '*' || c == backtickC ||
  c == lbraceC || c == '!'

/-- The `if (urlStart !== -1 && (nextSpecial === -1 || urlStart < nextSpecial))`
update of matchText. -/
def mergeUrlIdx (u ns : Option Nat) : Option Nat :=
  match u, ns with
  | some u, none => some u
  | some u, some i => if u < i then some u else some i
  | none, x => x

/-- The `newlineBlockquote` update of matchText: stop at the newline right
before a line-start blockquote when it comes first. -/
def mergeNlBq (j ns : Option Nat) : Option Nat :=
  match j, ns with
  | some j, none => some (j + 1)
  | some j, some i => if j + 1 < i then some (j + 1) else some i
  | none, x => x

/-- LogseqParser.matchText: the fallback plain-text run.  Mirrors the
source exactly, including the (unreachable through `parse`) zero-length
branch when a blockquote starts at a line start, the task-marker special
case, the URL-start cutoff, and the cut before a line break that is
immediately followed by a blockquote marker.  `Math.max(1, idx)` keeps the
run length at least one. -/
def matchText (atStart : Bool) (rem : List Char) : Token :=
  let ns0 := findCharIdx textSpecial rem
  if atStart && (taskChain rem).isSome then
    let len :=
      match ns0 with
      | none => rem.length
      | some i => max 1 i
    { type := .text, value := rem.take len, length := len }
  else if atStart && rem.head? == some '>' then
    { type := .text, value := [], length := 0 }
  else
    let ns2 := mergeNlBq (findSubIdx (("\n>").data) rem)
      (mergeUrlIdx (findUrlIdx rem) ns0)
    let len :=
      match ns2 with
      | none => rem.length
      | some i => max 1 i
    { type := .text, value := rem.take len, length := len }

/-- First `some` in a list of matcher results (the `||` chain of parse). -/
def firstSomeTok : List (Option Token) → Option Token
  | [] => none
  | some t :: _ => some t
  | none :: rest => firstSomeTok rest

/-- The eleven matchers of LogseqParser.parse in priority order. -/
def matchers (atStart : Bool) (rem : List Char) : List (Option Token) :=
  [tryMatchCodeBlock rem, tryMatchQuery rem, tryMatchTaskMarker atStart rem,
   tryMatchBlockquote atStart rem, tryMatchImage rem,
   tryMatchMarkdownLink rem, tryMatchBlockRef rem, tryMatchNakedUrl rem,
   tryMatchHighlight rem, tryMatchBold rem, tryMatchTag rem]

/-- The token chosen at one scan position. -/
def nextToken (atStart : Bool) (rem : List Char) : Token :=
  (firstSomeTok (matchers atStart rem)).getD (matchText atStart rem)

/-- The scan loop of LogseqParser.parse, with fuel for termination.  The
line-start context (`pos == 0 || content[pos-1] == '\n'`) is threaded as
`atStart`; a token of length `n ≥ 1` leaves the scanner at line start
exactly when its last consumed character is a newline. -/
def parseAux : Nat → Bool → List Char → List Token
  | 0, _, _ => []
  | _ + 1, _, [] => []
  | fuel + 1, atStart, rem =>
    let t := nextToken atStart rem
    let consumed := rem.take t.length
    let atStart' := if t.length == 0 then atStart else consumed.getLastD ' ' == '\n'
    t :: parseAux fuel atStart' (rem.drop t.length)

/-- LogseqParser.parse on a character list. -/
def parse (content : List Char) : List Token :=
  parseAux content.length true content

/-- LogseqParser.parse on a string. -/
def tokenize (content : String) : List Token := parse content.data

/-- MarkdownGenerator.generateTaskMarker. -/
def mdTaskMarker (k : Option TaskKind) : List Char :=
  match k.getD TaskKind.todo with
  | .todo => ("- [ ] ").data
  | .done => ("- [x] ").data
  | .doing => ("- [ ] 🔄 ").data
  | .later => ("- [ ] ⏳ ").data
  | .now => ("- [ ] 🔥 ").data

/-- MarkdownGenerator.generateMarkdownLink. -/
def mdGenLink (t : Token) : List Char :=
  let linkText := jsOrStr ((t.linkText).getD []) t.value
  let linkTarget := (t.linkTarget).getD []
  if (t.isExternalUrl).getD false then
    ("[").data ++ linkText ++ ("](").data ++ linkTarget ++ (")").data
  else
    ("**").data ++ linkText ++ ("** (→ ").data ++ linkTarget ++ (")").data

/-- MarkdownGenerator.generateImage. -/
def mdGenImage (t : Token) : List Char :=
  let altText := (t.altText).getD []
  let imageSrc := (t.linkTarget).getD []
  if (t.isExternalUrl).getD false then
    ("![").data ++ altText ++ ("](").data ++ imageSrc ++ (")").data
  else
    ("**[Image: ").data ++ jsOrStr altText (("no description").data) ++
    ("]** (local file: ").data ++ imageSrc ++ (")").data

/-- MarkdownGenerator.generateVideoEmbed. -/
def mdGenVideo (t : Token) : List Char :=
  let url := jsOrStr ((t.linkTarget).getD []) t.value
  if t.videoType == some VideoKind.youtube && truthyOpt t.videoId then
    ("[▶️ YouTube Video](https://www.youtube.com/watch?v=").data ++
    (t.videoId).getD [] ++ (")").data
  else if t.videoType == some VideoKind.vimeo && truthyOpt t.videoId then
    ("[▶️ Vimeo Video](https://vimeo.com/").data ++ (t.videoId).getD [] ++ (")").data
  else
    ("[▶️ Video](").data ++ url ++ (")").data

/-- MarkdownGenerator.generateCodeBlock. -/
def mdGenCodeBlock (t : Token) : List Char :=
  ("```").data ++ (t.language).getD [] ++ ("\n").data ++ t.value ++ ("```").data

/-- MarkdownGenerator.generateToken. -/
def mdGenToken (t : Token) : List Char :=
  match t.type with
  | .text => t.value
  | .blockRef => ("**").data ++ t.value ++ ("**").data
  | .markdownLink => mdGenLink t
  | .nakedUrl => t.value
  | .image => mdGenImage t
  | .videoEmbed => mdGenVideo t
  | .tag => ("**").data ++ t.value ++ ("**").data
  | .highlight => ("<mark>").data ++ t.value ++ ("</mark>").data
  | .bold => ("**").data ++ t.value ++ ("**").data
  | .codeBlock => mdGenCodeBlock t
  | .query => ("Query: ").data ++ t.value
  | .taskMarker => mdTaskMarker t.taskType
  | .blockquote => ("> ").data ++ t.value

/-- MarkdownGenerator.generate. -/
def mdGenerate (ts : List Token) : List Char := listJoinMap mdGenToken ts

/-- Tail `\s*-\s*(.+)$` shared by the two blockquote regexes of
AsciiDocGenerator.generateBlockquote.  Both `\s*` runs are greedy; the
first can only match maximally (a dash is not whitespace), the second
backtracks at most one character so that `(.+)` is nonempty; `(.+)` cannot
contain a newline and must reach the end of the string. -/
def bqTail (s : List Char) : Option (List Char) :=
  let w := s.takeWhile isWsJS
  match s.drop w.length with
  | '-' :: s3 =>
    let w2 := s3.takeWhile isWsJS
    let s4 := s3.drop w2.length
    if s4.isEmpty then
      match w2.getLast? with
      | some c => if c == '\n' then none else some [c]
      | none => none
    else if s4.all (fun c => c != '\n') then some s4
    else none
  | _ => none

/-- Lazy scan for `(.+?)"` followed by `bqTail`, used after the opening
quote of the pattern `^"(.+?)"\s*-\s*(.+)$`: the shortest nonempty
newline-free prefix whose following character is a straight quote and
whose remainder matches the tail wins. -/
def qaScan : List Char → Option (List Char × List Char)
  | [] => none
  | c :: tl =>
    if c == '\n' then none
    else
      let here : Option (List Char × List Char) :=
        match tl with
        | q :: tl2 =>
          if q == quotC then (bqTail tl2).map (fun a => ([c], a)) else none
        | [] => none
      match here with
      | some r => some r
      | none => (qaScan tl).map (fun (qs, a) => (c :: qs, a))

/-- The anchored pattern `^"(.+?)"\s*-\s*(.+)$`. -/
def matchQuoteAuthor (q : List Char) : Option (List Char × List Char) :=
  match q with
  | c :: rest => if c == quotC then qaScan rest else none
  | [] => none

/-- Lazy scan for the looser pattern `^(.+?)\s*-\s*(.+)$`. -/
def sqScan : List Char → Option (List Char × List Char)
  | [] => none
  | c :: tl =>
    if c == '\n' then none
    else
      match bqTail tl with
      | some a => some ([c], a)
      | none => (sqScan tl).map (fun (l, a) => (c :: l, a))

/-- The anchored pattern `^(.+?)\s*-\s*(.+)$`. -/
def matchSimpleQuote (q : List Char) : Option (List Char × List Char) :=
  sqScan q

/-- AsciiDocGenerator.generateBlockquote. -/
def adocGenBlockquote (q : List Char) : List Char :=
  match matchQuoteAuthor q with
  | some (quote, author) =>
    ("\n\"").data ++ quote ++ ("\"\n-- ").data ++ author ++ ("\n").data
  | none =>
    match matchSimpleQuote q with
    | some (l, r) =>
      let potentialQuote := jsTrim l
      let potentialAuthor := jsTrim r
      if potentialAuthor.length < 50 ∧ potentialQuote.length > potentialAuthor.length then
        ("\n\"").data ++ potentialQuote ++ ("\"\n-- ").data ++ potentialAuthor ++ ("\n").data
      else ("\"").data ++ q ++ ("\"").data
    | none => ("\"").data ++ q ++ ("\"").data

/-- AsciiDocGenerator.generateTaskMarker. -/
def adocTaskMarker (k : Option TaskKind) : List Char :=
  match k.getD TaskKind.todo with
  | .todo => ("* [ ] ").data
  | .done => ("* [x] ").data
  | .doing => ("* [ ] 🔄 ").data
  | .later => ("* [ ] ⏳ ").data
  | .now => ("* [ ] 🔥 ").data

/-- AsciiDocGenerator.generateAsciiDocLink. -/
def adocGenLink (t : Token) : List Char :=
  let linkText := jsOrStr ((t.linkText).getD []) t.value
  let linkTarget := (t.linkTarget).getD []
  if (t.isExternalUrl).getD false then
    linkTarget ++ ("[").data ++ linkText ++ ("]").data
  else
    ("*").data ++ linkText ++ ("* (→ ").data ++ linkTarget ++ (")").data

/-- AsciiDocGenerator.generateImage. -/
def adocGenImage (t : Token) : List Char :=
  let altText := (t.altText).getD []
  let imageSrc := (t.linkTarget).getD []
  if (t.isExternalUrl).getD false then
    ("image::").data ++ imageSrc ++ ("[").data ++ altText ++ ("]").data
  else
    ("*[Image: ").data ++ jsOrStr altText (("no description").data) ++
    ("]* (local file: ").data ++ imageSrc ++ (")").data

/-- AsciiDocGenerator.generateVideoEmbed. -/
def adocGenVideo (t : Token) : List Char :=
  let url := jsOrStr ((t.linkTarget).getD []) t.value
  if t.videoType == some VideoKind.youtube && truthyOpt t.videoId then
    ("video::").data ++ (t.videoId).getD [] ++ ("[youtube]").data
  else if t.videoType == some VideoKind.vimeo && truthyOpt t.videoId then
    ("video::").data ++ (t.videoId).getD [] ++ ("[vimeo]").data
  else
    url ++ ("[▶️ Video]").data

/-- AsciiDocGenerator.generateCodeBlock. -/
def adocGenCodeBlock (t : Token) : List Char :=
  let lang := (t.language).getD []
  let sourceAttr :=
    if lang.isEmpty then ("[source]").data
    else ("[source,").data ++ lang ++ ("]").data
  sourceAttr ++ ("\n----\n").data ++ jsTrim t.value ++ ("\n----").data

/-- AsciiDocGenerator.generateToken. -/
def adocGenToken (t : Token) : List Char :=
  match t.type with
  | .text => if t.value = ['\n'] then [] else t.value
  | .blockRef => ("*").data ++ t.value ++ ("*").data
  | .markdownLink => adocGenLink t
  | .nakedUrl => t.value
  | .image => adocGenImage t
  | .videoEmbed => adocGenVideo t
  | .tag => ("*").data ++ t.value ++ ("*").data
  | .highlight => ("#").data ++ t.value ++ ("#").data
  | .bold => ("*").data ++ t.value ++ ("*").data
  | .codeBlock => adocGenCodeBlock t
  | .query => ("Query: ").data ++ t.value
  | .taskMarker => adocTaskMarker t.taskType
  | .blockquote => adocGenBlockquote t.value

/-- AsciiDocGenerator.generate. -/
def adocGenerate (ts : List Token) : List Char := listJoinMap adocGenToken ts

/-- HtmlGenerator.escapeHtml: five sequential global single-character
replacements, ampersand first. -/
def escapeHtml (t : List Char) : List Char :=
  replaceAllChar aposC (("&#039;").data)
    (replaceAllChar quotC (("&quot;").data)
      (replaceAllChar '>' (("&gt;").data)
        (replaceAllChar '<' (("&lt;").data)
          (replaceAllChar '&' (("&amp;").data) t))))

/-- Claim-side escaping: each of the five characters is replaced by its
entity, pointwise and in one pass. -/
def escCharSpec (c : Char) : List Char :=
  if c == '&' then ("&amp;").data
  else if c == '<' then ("&lt;").data
  else if c == '>' then ("&gt;").data
  else if c == quotC then ("&quot;").data
  else if c == aposC then ("&#039;").data
  else [c]

/-- Claim-side escaping over a whole string. -/
def escapeHtmlSpec (t : List Char) : List Char := listJoinMap escCharSpec t

/-- HtmlGenerator.generateLink. -/
def htmlGenLink (t : Token) : List Char :=
  let linkText := jsOrStr ((t.linkText).getD []) t.value
  let linkTarget := (t.linkTarget).getD []
  if (t.isExternalUrl).getD false then
    ("<a href=\"").data ++ escapeHtml linkTarget ++ ("\">").data ++
    escapeHtml linkText ++ ("</a>").data
  else
    ("<strong>").data ++ escapeHtml linkText ++ ("</strong> <em>(→ ").data ++
    escapeHtml linkTarget ++ (")</em>").data

/-- HtmlGenerator.generateImage. -/
def htmlGenImage (t : Token) : List Char :=
  let altText := (t.altText).getD []
  let imageSrc := (t.linkTarget).getD []
  if (t.isExternalUrl).getD false then
    ("<img src=\"").data ++ escapeHtml imageSrc ++ ("\" alt=\"").data ++
    escapeHtml altText ++ ("\" />").data
  else
    ("<strong>[Image: ").data ++
    escapeHtml (jsOrStr altText (("no description").data)) ++
    ("]</strong> <em>(local file: ").data ++ escapeHtml imageSrc ++ (")</em>").data

/-- HtmlGenerator.generateVideoEmbed. -/
def htmlGenVideo (t : Token) : List Char :=
  let url := jsOrStr ((t.linkTarget).getD []) t.value
  if t.videoType == some VideoKind.youtube && truthyOpt t.videoId then
    ("<iframe width=\"560\" height=\"315\" src=\"https://www.youtube.com/embed/").data ++
    escapeHtml ((t.videoId).getD []) ++
    ("\" frameborder=\"0\" allowfullscreen></iframe>").data
  else if t.videoType == some VideoKind.vimeo && truthyOpt t.videoId then
    ("<iframe src=\"https://player.vimeo.com/video/").data ++
    escapeHtml ((t.videoId).getD []) ++
    ("\" width=\"560\" height=\"315\" frameborder=\"0\" allowfullscreen></iframe>").data
  else
    ("<a href=\"").data ++ escapeHtml url ++ ("\">▶️ Video</a>").data

/-- HtmlGenerator.generateCodeBlock. -/
def htmlGenCodeBlock (t : Token) : List Char :=
  let lang := (t.language).getD []
  let langClass :=
    if lang.isEmpty then ([] : List Char)
    else (" class=\"language-").data ++ escapeHtml lang ++ ("\"").data
  ("<pre><code").data ++ langClass ++ (">").data ++ escapeHtml t.value ++
  ("</code></pre>").data

/-- HtmlGenerator.generateTaskMarker. -/
def htmlGenTask (t : Token) : List Char :=
  let checked := if t.taskType == some TaskKind.done then (" checked").data else []
  let emoji :=
    match t.taskType with
    | some .doing => ("🔄").data
    | some .later => ("⏳").data
    | some .now => ("🔥").data
    | _ => []
  ("<input type=\"checkbox\"").data ++ checked ++ (" disabled /> ").data ++ emoji

/-- HtmlGenerator.generateToken. -/
def htmlGenToken (t : Token) : List Char :=
  match t.type with
  | .text => escapeHtml t.value
  | .blockRef => ("<strong>").data ++ escapeHtml t.value ++ ("</strong>").data
  | .markdownLink => htmlGenLink t
  | .nakedUrl =>
    ("<a href=\"").data ++ escapeHtml t.value ++ ("\">").data ++
    escapeHtml t.value ++ ("</a>").data
  | .image => htmlGenImage t
  | .videoEmbed => htmlGenVideo t
  | .tag => ("<strong>").data ++ escapeHtml t.value ++ ("</strong>").data
  | .highlight => ("<mark>").data ++ escapeHtml t.value ++ ("</mark>").data
  | .bold => ("<strong>").data ++ escapeHtml t.value ++ ("</strong>").data
  | .codeBlock => htmlGenCodeBlock t
  | .query => ("<em>Query: ").data ++ escapeHtml t.value ++ ("</em>").data
  | .taskMarker => htmlGenTask t
  | .blockquote => ("<blockquote>").data ++ escapeHtml t.value ++ ("</blockquote>").data

/-- HtmlGenerator.generate. -/
def htmlGenerate (ts : List Token) : List Char := listJoinMap htmlGenToken ts

/-- Claim-side variant of HtmlGenerator.generateLink: every text-bearing
field passes through the pointwise escape before being placed in the
output. -/
def htmlGenLinkSpec (t : Token) : List Char :=
  let linkText := jsOrStr ((t.linkText).getD []) t.value
  let linkTarget := (t.linkTarget).getD []
  if (t.isExternalUrl).getD false then
    ("<a href=\"").data ++ escapeHtmlSpec linkTarget ++ ("\">").data ++
    escapeHtmlSpec linkText ++ ("</a>").data
  else
    ("<strong>").data ++ escapeHtmlSpec linkText ++ ("</strong> <em>(→ ").data ++
    escapeHtmlSpec linkTarget ++ (")</em>").data

/-- Claim-side variant of HtmlGenerator.generateImage. -/
def htmlGenImageSpec (t : Token) : List Char :=
  let altText := (t.altText).getD []
  let imageSrc := (t.linkTarget).getD []
  if (t.isExternalUrl).getD false then
    ("<img src=\"").data ++ escapeHtmlSpec imageSrc ++ ("\" alt=\"").data ++
    escapeHtmlSpec altText ++ ("\" />").data
  else
    ("<strong>[Image: ").data ++
    escapeHtmlSpec (jsOrStr altText (("no description").data)) ++
    ("]</strong> <em>(local file: ").data ++ escapeHtmlSpec imageSrc ++ (")</em>").data

/-- Claim-side variant of HtmlGenerator.generateVideoEmbed. -/
def htmlGenVideoSpec (t : Token) : List Char :=
  let url := jsOrStr ((t.linkTarget).getD []) t.value
  if t.videoType == some VideoKind.youtube && truthyOpt t.videoId then
    ("<iframe width=\"560\" height=\"315\" src=\"https://www.youtube.com/embed/").data ++
    escapeHtmlSpec ((t.videoId).getD []) ++
    ("\" frameborder=\"0\" allowfullscreen></iframe>").data
  else if t.videoType == some VideoKind.vimeo && truthyOpt t.videoId then
    ("<iframe src=\"https://player.vimeo.com/video/").data ++
    escapeHtmlSpec ((t.videoId).getD []) ++
    ("\" width=\"560\" height=\"315\" frameborder=\"0\" allowfullscreen></iframe>").data
  else
    ("<a href=\"").data ++ escapeHtmlSpec url ++ ("\">▶️ Video</a>").data

/-- Claim-side variant of HtmlGenerator.generateCodeBlock. -/
def htmlGenCodeBlockSpec (t : Token) : List Char :=
  let lang := (t.language).getD []
  let langClass :=
    if lang.isEmpty then ([] : List Char)
    else (" class=\"language-").data ++ escapeHtmlSpec lang ++ ("\"").data
  ("<pre><code").data ++ langClass ++ (">").data ++ escapeHtmlSpec t.value ++
  ("</code></pre>").data

/-- Claim-side variant of HtmlGenerator.generateToken: same templates, with
the pointwise entity replacement applied to every literal text field. -/
def htmlGenTokenSpec (t : Token) : List Char :=
  match t.type with
  | .text => escapeHtmlSpec t.value
  | .blockRef => ("<strong>").data ++ escapeHtmlSpec t.value ++ ("</strong>").data
  | .markdownLink => htmlGenLinkSpec t
  | .nakedUrl =>
    ("<a href=\"").data ++ escapeHtmlSpec t.value ++ ("\">").data ++
    escapeHtmlSpec t.value ++ ("</a>").data
  | .image => htmlGenImageSpec t
  | .videoEmbed => htmlGenVideoSpec t
  | .tag => ("<strong>").data ++ escapeHtmlSpec t.value ++ ("</strong>").data
  | .highlight => ("<mark>").data ++ escapeHtmlSpec t.value ++ ("</mark>").data
  | .bold => ("<strong>").data ++ escapeHtmlSpec t.value ++ ("</strong>").data
  | .codeBlock => htmlGenCodeBlockSpec t
  | .query => ("<em>Query: ").data ++ escapeHtmlSpec t.value ++ ("</em>").data
  | .taskMarker => htmlGenTask t
  | .blockquote => ("<blockquote>").data ++ escapeHtmlSpec t.value ++ ("</blockquote>").data

/-- One outline block (`LogseqBlock`): content, ordered properties
(`none` values model JavaScript `null`/`undefined`), ordered children.
A missing `children`/`properties` field is the empty list. -/
inductive Block
  | node (content : List Char) (props : List (List Char × Option (List Char)))
      (children : List Block)

/-- Content accessor. -/
def Block.content : Block → List Char
  | .node c _ _ => c

/-- Properties accessor. -/
def Block.props : Block → List (List Char × Option (List Char))
  | .node _ p _ => p

/-- Children accessor. -/
def Block.children : Block → List Block
  | .node _ _ cs => cs

/-- ExportOptions (format is fixed by the converter used). -/
structure ExportOptions where
  includeChildren : Bool
  includeProperties : Bool
  maxDepth : Option Int
deriving DecidableEq

/-- ExportResult. -/
structure ExportResult where
  content : List Char
  format : List Char
  blockCount : Nat
deriving DecidableEq

/-- The `options.maxDepth && depth > options.maxDepth` guard of all three
converters.  A JavaScript number is truthy unless it is `0` (or NaN), so a
zero `maxDepth` disables the guard and a negative one cuts at the root. -/
def depthCut (o : ExportOptions) (depth : Nat) : Bool :=
  match o.maxDepth with
  | some m => decide (m ≠ 0 ∧ m < (depth : Int))
  | none => false

mutual
/-- countBlocks, shared verbatim by all three converters. -/
def countBlocks : Block → ExportOptions → Nat
  | .node _ _ cs, o => 1 + (if o.includeChildren then countBlocksList cs o else 0)

/-- Loop of countBlocks over a child list. -/
def countBlocksList : List Block → ExportOptions → Nat
  | [], _ => 0
  | c :: cs, o => countBlocks c o + countBlocksList cs o
end

mutual
/-- Number of blocks reachable from the root along children edges. -/
def treeSize : Block → Nat
  | .node _ _ cs => 1 + treeSizeList cs

/-- Total size of a list of trees. -/
def treeSizeList : List Block → Nat
  | [] => 0
  | c :: cs => treeSize c + treeSizeList cs
end

/-- Test of `^#{1,6}\s` (AsciiDocConverter.isHeading) and of `^#{1,6}\s+`
(HtmlConverter.isHeading): both accept exactly a run of one to six hashes
followed by a whitespace character, since backtracking a shorter hash run
exposes another hash, which `\s` rejects. -/
def isHeadingLine (l : List Char) : Bool :=
  let hs := l.takeWhile (fun c => c == '#')
  1 ≤ hs.length && hs.length ≤ 6 &&
    (match (l.drop hs.length).head? with
     | some c => isWsJS c
     | none => false)

/-- Backtracking loop for `\s+(.+)` of the heading regex: the greedy
whitespace run shrinks one character at a time (never below one) until the
rest of the `.`-matchable run is nonempty. -/
def headTextLoop (ws rest2 : List Char) : Nat → Option (List Char)
  | 0 => none
  | k + 1 =>
    let cand := ((ws.drop (k + 1)) ++ rest2).takeWhile (fun c => c != '\n')
    if cand.isEmpty then headTextLoop ws rest2 k else some cand

/-- Match of `^(#{1,6})\s+(.+)` shared by convertToDiscreteHeading and
convertToHeading: hash level plus heading text. -/
def headingMatch (l : List Char) : Option (Nat × List Char) :=
  let hs := l.takeWhile (fun c => c == '#')
  let n := hs.length
  if 1 ≤ n && n ≤ 6 then
    let rest := l.drop n
    let ws := rest.takeWhile isWsJS
    if ws.isEmpty then none
    else
      let rest2 := rest.drop ws.length
      (headTextLoop ws rest2 ws.length).map (fun text => (n, text))
  else none

/-- MarkdownConverter.convertProperties. -/
def mdConvertProps (props : List (List Char × Option (List Char))) : List Char :=
  joinNl ((("**Properties:**").data) ::
    props.filterMap (fun (k, v) =>
      match v with
      | some v => some ((("- **").data) ++ k ++ (("**: ").data) ++ v)
      | none => none))

/-- MarkdownConverter.convertBlockContent: tokenize and render the content,
then decorate nested blocks with two-space indentation and a dash bullet;
fenced code blocks are indented without a bullet; multi-line content gets a
trailing backslash on each line except the last, blockquote or empty lines,
and lines right before a blockquote or empty line (a zero-length next line
is falsy in JavaScript and so does not count as empty here). -/
def mdConvertBlockContent (content : List Char) (depth : Nat) : List Char :=
  if jsTrim content = [] then []
  else
    let converted := mdGenerate (parse content)
    if depth == 0 then converted
    else
      let lines := splitNl converted
      let indent := listJoinMap (fun _ => ("  ").data) (List.range depth)
      if strStarts ("```") converted then
        joinNl (lines.map (fun l => indent ++ l))
      else if 1 < lines.length then
        let remainingLines := (lines.drop 1).enum.map (fun (idx, line) =>
          let isBq := strStarts (">") (jsTrim line)
          let isEmpty := jsTrim line |>.isEmpty
          let isLastLine := idx == lines.length - 2
          let nextLine := lines.get? (idx + 2)
          let nextIsBq :=
            match nextLine with
            | some nl => !nl.isEmpty && strStarts (">") (jsTrim nl)
            | none => false
          let nextIsEmpty :=
            match nextLine with
            | some nl => !nl.isEmpty && (jsTrim nl).isEmpty
            | none => false
          if isBq || isEmpty || isLastLine || nextIsBq || nextIsEmpty then
            indent ++ ("  ").data ++ line
          else indent ++ ("  ").data ++ line ++ ("\\").data)
        let secondLine := (lines.get? 1).getD []
        let needsBackslash :=
          !secondLine.isEmpty && !strStarts (">") (jsTrim secondLine) &&
          !(jsTrim secondLine).isEmpty
        let firstLine :=
          if needsBackslash then indent ++ ("- ").data ++ (lines.headD []) ++ ("\\").data
          else indent ++ ("- ").data ++ (lines.headD [])
        joinNl (firstLine :: remainingLines)
      else indent ++ ("- ").data ++ converted

mutual
/-- MarkdownConverter.processBlock, returning the pushed lines. -/
def mdProcessBlock : Block → Nat → ExportOptions → List (List Char)
  | .node c p cs, depth, o =>
    if depthCut o depth then []
    else
      let content := mdConvertBlockContent c depth
      (if !(jsTrim content).isEmpty then [content] else []) ++
      (if o.includeProperties && !p.isEmpty then [mdConvertProps p] else []) ++
      (if o.includeChildren && !cs.isEmpty then mdProcessChildren cs (depth + 1) o
       else [])
termination_by b _ _ => sizeOf b

/-- Loop of processBlock over the children. -/
def mdProcessChildren : List Block → Nat → ExportOptions → List (List Char)
  | [], _, _ => []
  | c :: cs, depth, o => mdProcessBlock c depth o ++ mdProcessChildren cs depth o
termination_by cs _ _ => sizeOf cs
end

/-- MarkdownConverter.convertBlock. -/
def mdConvert (b : Block) (o : ExportOptions) : ExportResult :=
  { content := joinNl (mdProcessBlock b 0 o), format := ("markdown").data,
    blockCount := countBlocks b o }

/-- AsciiDocConverter.convertToDiscreteHeading. -/
def convertToDiscreteHeading (content : List Char) : List Char :=
  match headingMatch content with
  | none => content
  | some (n, text) =>
    ("\n\n[discrete]\n").data ++ List.replicate (n + 1) '=' ++ (" ").data ++
    text ++ ("\n").data

/-- AsciiDocConverter.convertProperties. -/
def adocConvertProps (props : List (List Char × Option (List Char))) : List Char :=
  joinNl ((("*Properties:*").data) :: ([] : List Char) ::
    props.filterMap (fun (k, v) =>
      match v with
      | some v => some ((("* *").data) ++ k ++ (("*: ").data) ++ v)
      | none => none))

/-- The `while (lines.length > 0 && blank last) lines.pop()` loop. -/
def dropTrailingBlank (ls : List (List Char)) : List (List Char) :=
  (ls.reverse.dropWhile (fun l => (jsTrim l).isEmpty)).reverse

/-- AsciiDocConverter.convertBlockContent.  The second component threads
the class-level `listDepthOffset` field: `none` models `null`.  Headings
reset it; code blocks leave it untouched; the first nested non-heading,
non-code block initializes it to `depth - 1`. -/
def adocConvertBlockContent (content : List Char) (depth : Nat)
    (s : Option Int) : List Char × Option Int :=
  if jsTrim content = [] then ([], s)
  else
    let converted := adocGenerate (parse content)
    let lines := splitNl converted
    let firstLine := lines.headD []
    if isHeadingLine firstLine then
      let headingResult := convertToDiscreteHeading firstLine
      if 1 < lines.length then
        (headingResult ++ joinNl (lines.drop 1) ++ ("\n").data, none)
      else (headingResult, none)
    else if strStarts ("[source") converted then
      (("\n").data ++ converted, s)
    else if 0 < depth then
      let s' : Option Int :=
        match s with
        | none => some ((depth : Int) - 1)
        | some v => some v
      let offset : Int :=
        match s with
        | none => (depth : Int) - 1
        | some v => v
      let effective := max 1 ((depth : Int) - offset)
      let indent := List.replicate effective.toNat '*'
      if 1 < lines.length then
        let hasQuoteBlock :=
          containsSub (("\n\"").data) converted && containsSub (("\n--").data) converted
        if hasQuoteBlock then
          let lines2 := dropTrailingBlank lines
          if (jsTrim (lines2.headD [])).isEmpty then
            (indent ++ (" ").data ++ joinNl (lines2.drop 1), s')
          else
            let flm :=
              if strStarts ("* [") converted then indent ++ (lines2.headD []).drop 1
              else indent ++ (" ").data ++ lines2.headD []
            (flm ++ ("\n").data ++ joinNl (lines2.drop 1), s')
        else
          let flm :=
            if strStarts ("* [") converted then indent ++ (lines.headD []).drop 1
            else indent ++ (" ").data ++ lines.headD []
          let processed := listJoinMap (fun (i, line0) =>
            let line := if i == 0 then flm else line0
            if i == lines.length - 1 then [line]
            else if (jsTrim line).isEmpty then [("+").data, line]
            else if (match lines.get? (i + 1) with
                     | some nl => (jsTrim nl).isEmpty
                     | none => false) then [line ++ (" +").data]
            else [line ++ (" +").data]) lines.enum
          (joinNl processed, s')
      else
        if strStarts ("* [") converted then (indent ++ converted.drop 1, s')
        else (indent ++ (" ").data ++ converted, s')
    else (converted, s)

mutual
/-- AsciiDocConverter.processBlock, returning the pushed lines and the
updated depth-offset state. -/
def adocProcessBlock : Block → Nat → ExportOptions → Option Int →
    List (List Char) × Option Int
  | .node c p kids, depth, o, s =>
    if depthCut o depth then ([], s)
    else
      let cs := adocConvertBlockContent c depth s
      let l1 := if !(jsTrim cs.1).isEmpty then [cs.1] else []
      let l2 :=
        if o.includeProperties && !p.isEmpty then [adocConvertProps p]
        else []
      if o.includeChildren && !kids.isEmpty then
        let r := adocProcessChildren kids (depth + 1) o cs.2
        (l1 ++ l2 ++ r.1, r.2)
      else (l1 ++ l2, cs.2)
termination_by b _ _ _ => sizeOf b

/-- State-threading loop of processBlock over the children. -/
def adocProcessChildren : List Block → Nat → ExportOptions → Option Int →
    List (List Char) × Option Int
  | [], _, _, s => ([], s)
  | c :: cs, depth, o, s =>
    let r1 := adocProcessBlock c depth o s
    let r2 := adocProcessChildren cs depth o r1.2
    (r1.1 ++ r2.1, r2.2)
termination_by cs _ _ _ => sizeOf cs
end

/-- AsciiDocConverter.convertBlock with the incoming value of the static
`listDepthOffset` field made explicit: the method's first statement
overwrites it with `null`, so `s0` is dead on arrival.  Returns the result
together with the static field's value after the call. -/
def adocConvertS (_s0 : Option Int) (b : Block) (o : ExportOptions) :
    ExportResult × Option Int :=
  let reset : Option Int := none
  let r := adocProcessBlock b 0 o reset
  ({ content := joinNl r.1, format := ("asciidoc").data,
     blockCount := countBlocks b o }, r.2)

/-- AsciiDocConverter.convertBlock as seen by a caller. -/
def adocConvert (b : Block) (o : ExportOptions) : ExportResult :=
  (adocConvertS none b o).1

/-- HtmlConverter.convertProperties. -/
def htmlConvertProps (props : List (List Char × Option (List Char))) : List Char :=
  ("<div class=\"properties\"><strong>Properties:</strong><ul>").data ++
  listJoinMap (fun (p : List Char × Option (List Char)) =>
    match p.2 with
    | some v =>
      ("<li><strong>").data ++ escapeHtml p.1 ++ ("</strong>: ").data ++
      escapeHtml v ++ ("</li>").data
    | none => []) props ++
  ("</ul></div>").data

/-- Claim-side variant of HtmlConverter.convertProperties with the
pointwise escape. -/
def htmlConvertPropsSpec (props : List (List Char × Option (List Char))) : List Char :=
  ("<div class=\"properties\"><strong>Properties:</strong><ul>").data ++
  listJoinMap (fun (p : List Char × Option (List Char)) =>
    match p.2 with
    | some v =>
      ("<li><strong>").data ++ escapeHtmlSpec p.1 ++ ("</strong>: ").data ++
      escapeHtmlSpec v ++ ("</li>").data
    | none => []) props ++
  ("</ul></div>").data

/-- Digit character of a heading level (1–6). -/
def digitChar (n : Nat) : Char := Char.ofNat (48 + n)

/-- HtmlConverter.convertToHeading. -/
def htmlConvertToHeading (content : List Char) : List Char :=
  match headingMatch content with
  | none => content
  | some (n, text) =>
    ("<h").data ++ [digitChar n] ++ (">").data ++ htmlGenerate (parse text) ++
    ("</h").data ++ [digitChar n] ++ (">").data

/-- HtmlConverter.convertBlockContent. -/
def htmlConvertBlockContent (content : List Char) : List Char :=
  if jsTrim content = [] then []
  else
    let lines := splitNl content
    let firstLine := lines.headD []
    if isHeadingLine firstLine then
      let headingHtml := htmlConvertToHeading firstLine
      if 1 < lines.length then
        let remaining := joinNl (lines.drop 1)
        headingHtml ++ replaceAllChar '\n' (("<br>").data) (htmlGenerate (parse remaining))
      else headingHtml
    else
      replaceAllChar '\n' (("<br>").data) (htmlGenerate (parse content))

mutual
/-- HtmlConverter.generateListItem. -/
def htmlListItem : Block → ExportOptions → List Char
  | .node c p kids, o =>
    ("<li>").data ++ htmlConvertBlockContent c ++
    (if o.includeProperties && !p.isEmpty then htmlConvertProps p else []) ++
    (if o.includeChildren && !kids.isEmpty then
      ("<ul>").data ++ htmlListItems kids o ++ ("</ul>").data
    else []) ++
    ("</li>").data
termination_by b _ => sizeOf b

/-- Loop of generateListItem over the children. -/
def htmlListItems : List Block → ExportOptions → List Char
  | [], _ => []
  | c :: cs, o => htmlListItem c o ++ htmlListItems cs o
termination_by cs _ => sizeOf cs
end

/-- HtmlConverter.generateHtml (only ever called with depth 0 from
convertBlock; the depth guard is kept faithfully). -/
def htmlGenerateHtml (b : Block) (depth : Nat) (o : ExportOptions) : List Char :=
  if depthCut o depth then []
  else
    let content := htmlConvertBlockContent b.content
    if depth == 0 then
      (if !(jsTrim content).isEmpty then content else []) ++
      (if o.includeProperties && !b.props.isEmpty then htmlConvertProps b.props else []) ++
      (if o.includeChildren && !b.children.isEmpty then
        ("<ul>").data ++ htmlListItems b.children o ++ ("</ul>").data
      else [])
    else content

/-- HtmlConverter.convertBlock. -/
def htmlConvert (b : Block) (o : ExportOptions) : ExportResult :=
  { content := htmlGenerateHtml b 0 o, format := ("html").data,
    blockCount := countBlocks b o }

/-- Three-level example tree used by the depth-limit claims. -/
def exTree3 : Block :=
  .node (("Level 0").data) []
    [.node (("Level 1").data) [] [.node (("Level 2").data) [] []]]

/-- Options with includeChildren and maxDepth one. -/
def exOptsD1 : ExportOptions := ⟨true, false, some 1⟩

/-- Two-level task tree of the marker-replacement claim. -/
def exTreeTask : Block :=
  .node (("Root").data) []
    [.node (("TODO child").data) [] [.node (("DONE grandchild").data) [] []]]

/-- Options with includeChildren and no depth limit. -/
def exOptsNone : ExportOptions := ⟨true, false, none⟩

/-- Parent-child example tree. -/
def exTree2 : Block :=
  .node (("Root").data) [] [.node (("Child").data) [] []]

/-- Options with a zero maxDepth. -/
def exOpts0 : ExportOptions := ⟨true, false, some 0⟩

/-- Options with a negative maxDepth. -/
def exOptsNeg : ExportOptions := ⟨true, false, some (-1)⟩

/-- Root with a whitespace-only child. -/
def exTreeWs : Block :=
  .node (("Root").data) [] [.node (("   ").data) [] []]

/-- Options with includeChildren and a large depth limit. -/
def exOpts10 : ExportOptions := ⟨true, false, some 10⟩

theorem isPrefixOf_length {p l : List Char} (h : p.isPrefixOf l = true) :
    p.length ≤ l.length := by
  induction p generalizing l with
  | nil => simp
  | cons a as ih =>
    cases l with
    | nil => simp [List.isPrefixOf] at h
    | cons b bs =>
      simp only [List.isPrefixOf, Bool.and_eq_true] at h
      simpa using ih h.2

theorem takeWhile_length_le (p : Char → Bool) (l : List Char) :
    (l.takeWhile p).length ≤ l.length := by
  induction l with
  | nil => simp
  | cons a l ih =>
    simp only [List.takeWhile_cons]
    split
    · simpa using ih
    · simp

theorem findSubIdx_bound {pat l : List Char} {i : Nat} (hp : pat ≠ [])
    (h : findSubIdx pat l = some i) : i + pat.length ≤ l.length := by
  induction l generalizing i with
  | nil =>
    unfold findSubIdx at h
    cases pat with
    | nil => exact absurd rfl hp
    | cons a as => simp [List.isPrefixOf] at h
  | cons c tl ih =>
    unfold findSubIdx at h
    split at h
    · next hpre =>
      cases h
      simpa using isPrefixOf_length hpre
    · simp only [Option.map_eq_some'] at h
      obtain ⟨j, hj, rfl⟩ := h
      have := ih hj
      simp only [List.length_cons]
      omega

theorem findCharIdx_bound {p : Char → Bool} {l : List Char} {i : Nat}
    (h : findCharIdx p l = some i) : i < l.length := by
  induction l generalizing i with
  | nil => simp [findCharIdx] at h
  | cons c tl ih =>
    unfold findCharIdx at h
    split at h
    · cases h; simp
    · simp only [Option.map_eq_some'] at h
      obtain ⟨j, hj, rfl⟩ := h
      have := ih hj
      simp only [List.length_cons]
      omega

theorem findUrlIdx_bound {l : List Char} {i : Nat}
    (h : findUrlIdx l = some i) : i < l.length := by
  induction l generalizing i with
  | nil => simp [findUrlIdx] at h
  | cons c tl ih =>
    unfold findUrlIdx at h
    split at h
    · cases h; simp
    · simp only [Option.map_eq_some'] at h
      obtain ⟨j, hj, rfl⟩ := h
      have := ih hj
      simp only [List.length_cons]
      omega

theorem tryMatchCodeBlock_bound {rem : List Char} {t : Token}
    (h : tryMatchCodeBlock rem = some t) : 1 ≤ t.length ∧ t.length ≤ rem.length := by
  simp only [tryMatchCodeBlock] at h
  split at h
  · next hpre =>
    split at h
    · next c rest3 heq =>
      split at h
      · split at h
        · next i hfind =>
          cases h
          have h3 : 3 ≤ rem.length := by simpa using isPrefixOf_length hpre
          have hlang := takeWhile_length_le isWordChar (rem.drop 3)
          have hdl : (rem.drop 3).length = rem.length - 3 := List.length_drop 3 rem
          have heqlen : ((rem.drop 3).drop ((rem.drop 3).takeWhile isWordChar).length).length
              = rest3.length + 1 := by rw [heq]; simp
          have hdl2 : ((rem.drop 3).drop ((rem.drop 3).takeWhile isWordChar).length).length
              = (rem.drop 3).length - ((rem.drop 3).takeWhile isWordChar).length :=
            List.length_drop _ _
          have hfb : i + 3 ≤ rest3.length := by simpa using findSubIdx_bound (by simp) hfind
          refine ⟨by simp, ?_⟩
          simp only
          omega
        · exact absurd h (by simp)
      · exact absurd h (by simp)
    · exact absurd h (by simp)
  · exact absurd h (by simp)

theorem curlyCapture_bound {kw : String} {rem cap : List Char} {n : Nat}
    (h : curlyCapture kw rem = some (cap, n)) :
    1 ≤ n ∧ n ≤ rem.length := by
  simp only [curlyCapture] at h
  split at h
  · next hpre =>
    have hp : 2 + kw.data.length ≤ rem.length := by
      have := isPrefixOf_length hpre
      simp only [List.length_cons] at this
      omega
    have hdl : (rem.drop (2 + kw.data.length)).length = rem.length - (2 + kw.data.length) :=
      List.length_drop _ _
    have hws := takeWhile_length_le isWsJS (rem.drop (2 + kw.data.length))
    have hdl2 : ((rem.drop (2 + kw.data.length)).drop
        ((rem.drop (2 + kw.data.length)).takeWhile isWsJS).length).length
        = (rem.drop (2 + kw.data.length)).length -
          ((rem.drop (2 + kw.data.length)).takeWhile isWsJS).length :=
      List.length_drop _ _
    split at h
    · exact absurd h (by simp)
    · split at h
      · split at h
        · next hcs =>
          simp only [Bool.and_eq_true, decide_eq_true_eq] at hcs
          have h2 : 2 ≤ ((rem.drop (2 + kw.data.length)).drop
              ((rem.drop (2 + kw.data.length)).takeWhile isWsJS).length).length := by
            have := isPrefixOf_length hcs.2
            simpa using this
          cases h
          exact ⟨by omega, by omega⟩
        · exact absurd h (by simp)
      · split at h
        · next hcc =>
          have htw := takeWhile_length_le (fun c => c != rbraceC)
            ((rem.drop (2 + kw.data.length)).drop
              ((rem.drop (2 + kw.data.length)).takeWhile isWsJS).length)
          have h2 : 2 ≤ (((rem.drop (2 + kw.data.length)).drop
              ((rem.drop (2 + kw.data.length)).takeWhile isWsJS).length).drop
                (((rem.drop (2 + kw.data.length)).drop
                  ((rem.drop (2 + kw.data.length)).takeWhile isWsJS).length).takeWhile
                    (fun c => c != rbraceC)).length).length := by
            have := isPrefixOf_length hcc
            simpa using this
          have hdl3 := List.length_drop
            (((rem.drop (2 + kw.data.length)).drop
              ((rem.drop (2 + kw.data.length)).takeWhile isWsJS).length).takeWhile
                (fun c => c != rbraceC)).length
            ((rem.drop (2 + kw.data.length)).drop
              ((rem.drop (2 + kw.data.length)).takeWhile isWsJS).length)
          cases h
          exact ⟨by omega, by omega⟩
        · exact absurd h (by simp)
  · exact absurd h (by simp)

theorem urlCapture_bound {s : Nat} {rest2 url : List Char}
    (h : urlCapture s rest2 = some url) :
    1 ≤ url.length ∧ url.length + 2 ≤ rest2.length := by
  simp only [urlCapture] at h
  split at h
  · exact absurd h (by simp)
  · next hgt =>
    split at h
    · next hcc =>
      cases h
      have h2 : 2 ≤ (rest2.drop
          ((rest2.takeWhile (fun c => c != rbraceC)).length)).length := by
        simpa using isPrefixOf_length hcc
      have hdl := List.length_drop
        ((rest2.takeWhile (fun c => c != rbraceC)).length) rest2
      have htw := takeWhile_length_le (fun c => c != rbraceC) rest2
      exact ⟨by omega, by omega⟩
    · exact absurd h (by simp)

theorem schemeUrlCapture_bound {rest2 url : List Char}
    (h : schemeUrlCapture rest2 = some url) :
    1 ≤ url.length ∧ url.length + 2 ≤ rest2.length := by
  simp only [schemeUrlCapture] at h
  split at h
  · exact urlCapture_bound h
  · split at h
    · exact urlCapture_bound h
    · exact absurd h (by simp)

theorem tryMatchVideoUrl_bound {rem : List Char} {t : Token}
    (h : tryMatchVideoUrl rem = some t) : 1 ≤ t.length ∧ t.length ≤ rem.length := by
  simp only [tryMatchVideoUrl] at h
  split at h
  · next hpre =>
    have hp : 7 ≤ rem.length := by
      have h5 : ("video").data.length = 5 := rfl
      have := isPrefixOf_length hpre
      simp only [List.length_cons] at this
      omega
    split at h
    · exact absurd h (by simp)
    · simp only [Option.map_eq_some'] at h
      obtain ⟨url, hu, rfl⟩ := h
      have hb := schemeUrlCapture_bound hu
      have hdl : (rem.drop 7).length = rem.length - 7 := List.length_drop _ _
      have hws := takeWhile_length_le isWsJS (rem.drop 7)
      have hdl2 : ((rem.drop 7).drop ((rem.drop 7).takeWhile isWsJS).length).length
          = (rem.drop 7).length - ((rem.drop 7).takeWhile isWsJS).length :=
        List.length_drop _ _
      refine ⟨by simp, ?_⟩
      simp only
      omega
  · exact absurd h (by simp)

theorem tryMatchYoutube_bound {rem : List Char} {t : Token}
    (h : tryMatchYoutube rem = some t) : 1 ≤ t.length ∧ t.length ≤ rem.length := by
  simp only [tryMatchYoutube, Option.map_eq_some'] at h
  obtain ⟨⟨cap, n⟩, hc, rfl⟩ := h
  simpa using curlyCapture_bound hc

theorem tryMatchVimeo_bound {rem : List Char} {t : Token}
    (h : tryMatchVimeo rem = some t) : 1 ≤ t.length ∧ t.length ≤ rem.length := by
  simp only [tryMatchVimeo, Option.map_eq_some'] at h
  obtain ⟨⟨cap, n⟩, hc, rfl⟩ := h
  simpa using curlyCapture_bound hc

theorem tryMatchQuery_bound {rem : List Char} {t : Token}
    (h : tryMatchQuery rem = some t) : 1 ≤ t.length ∧ t.length ≤ rem.length := by
  simp only [tryMatchQuery] at h
  split at h
  · next hv => cases h; exact tryMatchVideoUrl_bound hv
  · split at h
    · next hy => cases h; exact tryMatchYoutube_bound hy
    · split at h
      · next hvm => cases h; exact tryMatchVimeo_bound hvm
      · simp only [Option.map_eq_some'] at h
        obtain ⟨⟨cap, n⟩, hc, rfl⟩ := h
        simpa using curlyCapture_bound hc

theorem taskAttempt_bound {kw : String} {k : TaskKind} {rem : List Char} {t : Token}
    (h : taskAttempt kw k rem = some t) : 1 ≤ t.length ∧ t.length ≤ rem.length := by
  simp only [taskAttempt] at h
  split at h
  · next hpre =>
    split at h
    · exact absurd h (by simp)
    · next hws =>
      cases h
      have hp := isPrefixOf_length hpre
      have hdl : (rem.drop kw.data.length).length = rem.length - kw.data.length :=
        List.length_drop _ _
      have hws2 := takeWhile_length_le isWsJS (rem.drop kw.data.length)
      have hne : ((rem.drop kw.data.length).takeWhile isWsJS).length ≠ 0 := by
        simpa [List.isEmpty_iff, List.length_eq_zero] using hws
      exact ⟨by simp only; omega, by simp only; omega⟩
  · exact absurd h (by simp)

theorem taskChain_bound {rem : List Char} {t : Token}
    (h : taskChain rem = some t) : 1 ≤ t.length ∧ t.length ≤ rem.length := by
  simp only [taskChain] at h
  split at h
  · next ha => cases h; exact taskAttempt_bound ha
  · split at h
    · next ha => cases h; exact taskAttempt_bound ha
    · split at h
      · next ha => cases h; exact taskAttempt_bound ha
      · split at h
        · next ha => cases h; exact taskAttempt_bound ha
        · exact taskAttempt_bound h

theorem tryMatchTaskMarker_bound {atStart : Bool} {rem : List Char} {t : Token}
    (h : tryMatchTaskMarker atStart rem = some t) :
    1 ≤ t.length ∧ t.length ≤ rem.length := by
  simp only [tryMatchTaskMarker] at h
  split at h
  · exact taskChain_bound h
  · exact absurd h (by simp)

theorem tryMatchBlockquote_bound {atStart : Bool} {rem : List Char} {t : Token}
    (h : tryMatchBlockquote atStart rem = some t) :
    1 ≤ t.length ∧ t.length ≤ rem.length := by
  simp only [tryMatchBlockquote] at h
  split at h
  · split at h
    · next rest =>
      cases h
      simp only [List.length_cons]
      split
      · next hsp =>
        have htw := takeWhile_length_le (fun c => c != '\n') (rest.drop 1)
        have hdl : (rest.drop 1).length = rest.length - 1 := List.length_drop _ _
        have h1 : 1 ≤ rest.length := by
          simp only [beq_iff_eq] at hsp
          cases rest with
          | nil => simp at hsp
          | cons a tl => simp
        exact ⟨by omega, by omega⟩
      · have htw := takeWhile_length_le (fun c => c != '\n') rest
        exact ⟨by omega, by omega⟩
    · exact absurd h (by simp)
  · exact absurd h (by simp)

theorem tryMatchBlockquote_complete {rem : List Char} (hh : rem.head? = some '>') :
    (tryMatchBlockquote true rem).isSome = true := by
  cases rem with
  | nil => simp at hh
  | cons c tl =>
    simp only [List.head?] at hh
    cases hh
    simp [tryMatchBlockquote]

theorem tryMatchImage_bound {rem : List Char} {t : Token}
    (h : tryMatchImage rem = some t) : 1 ≤ t.length ∧ t.length ≤ rem.length := by
  simp only [tryMatchImage] at h
  split at h
  · next rest =>
    split at h
    · next c1 c2 rest3 heq =>
      split at h
      · exact absurd h (by simp)
      · next hsrc =>
        split at h
        · next c3 tl3 heq3 =>
          cases h
          have halt := takeWhile_length_le (fun c => c != ']') rest
          have heqlen : (rest.drop ((rest.takeWhile (fun c => c != ']')).length)).length
              = rest3.length + 2 := by rw [heq]; simp
          have hdl : (rest.drop ((rest.takeWhile (fun c => c != ']')).length)).length
              = rest.length - ((rest.takeWhile (fun c => c != ']')).length) :=
            List.length_drop _ _
          have hsw := takeWhile_length_le (fun c => c != ')') rest3
          have heqlen3 : (rest3.drop ((rest3.takeWhile (fun c => c != ')')).length)).length
              = tl3.length + 1 := by rw [heq3]; simp
          have hdl3 : (rest3.drop ((rest3.takeWhile (fun c => c != ')')).length)).length
              = rest3.length - ((rest3.takeWhile (fun c => c != ')')).length) :=
            List.length_drop _ _
          refine ⟨by simp, ?_⟩
          simp only [List.length_cons]
          omega
        · exact absurd h (by simp)
    · exact absurd h (by simp)
  · exact absurd h (by simp)

theorem tryMatchMarkdownLink_bound {rem : List Char} {t : Token}
    (h : tryMatchMarkdownLink rem = some t) : 1 ≤ t.length ∧ t.length ≤ rem.length := by
  simp only [tryMatchMarkdownLink] at h
  split at h
  · next rest =>
    split at h
    · exact absurd h (by simp)
    · next htxt =>
      split at h
      · next c1 c2 rest3 heq =>
        split at h
        · exact absurd h (by simp)
        · next hsrc =>
          split at h
          · next c3 tl3 heq3 =>
            cases h
            have halt := takeWhile_length_le (fun c => c != ']') rest
            have heqlen : (rest.drop ((rest.takeWhile (fun c => c != ']')).length)).length
                = rest3.length + 2 := by rw [heq]; simp
            have hdl : (rest.drop ((rest.takeWhile (fun c => c != ']')).length)).length
                = rest.length - ((rest.takeWhile (fun c => c != ']')).length) :=
              List.length_drop _ _
            have hsw := takeWhile_length_le (fun c => c != ')') rest3
            have heqlen3 : (rest3.drop ((rest3.takeWhile (fun c => c != ')')).length)).length
                = tl3.length + 1 := by rw [heq3]; simp
            have hdl3 : (rest3.drop ((rest3.takeWhile (fun c => c != ')')).length)).length
                = rest3.length - ((rest3.takeWhile (fun c => c != ')')).length) :=
              List.length_drop _ _
            refine ⟨by simp, ?_⟩
            simp only [List.length_cons]
            omega
          · exact absurd h (by simp)
      · exact absurd h (by simp)
  · exact absurd h (by simp)

theorem tryMatchBlockRef_bound {rem : List Char} {t : Token}
    (h : tryMatchBlockRef rem = some t) : 1 ≤ t.length ∧ t.length ≤ rem.length := by
  simp only [tryMatchBlockRef] at h
  split at h
  · next rest =>
    split at h
    · exact absurd h (by simp)
    · next hname =>
      split at h
      · next c1 c2 tl2 heq =>
        cases h
        have hnm := takeWhile_length_le (fun c => c != ']') rest
        have heqlen : (rest.drop ((rest.takeWhile (fun c => c != ']')).length)).length
            = tl2.length + 2 := by rw [heq]; simp
        have hdl : (rest.drop ((rest.takeWhile (fun c => c != ']')).length)).length
            = rest.length - ((rest.takeWhile (fun c => c != ']')).length) :=
          List.length_drop _ _
        refine ⟨by simp, ?_⟩
        simp only [List.length_cons]
        omega
      · exact absurd h (by simp)
  · exact absurd h (by simp)

theorem nakedBody_bound {s : Nat} {rem : List Char} {t : Token}
    (hs : s ≤ rem.length) (h : nakedBody s rem = some t) :
    1 ≤ t.length ∧ t.length ≤ rem.length := by
  simp only [nakedBody] at h
  split at h
  · exact absurd h (by simp)
  · next hb =>
    cases h
    have hne : ((rem.drop s).takeWhile
        (fun c => !isWsJS c && c != ')' && c != ']')).length ≠ 0 := by
      simpa [List.isEmpty_iff, List.length_eq_zero] using hb
    have htw := takeWhile_length_le
      (fun c => !isWsJS c && c != ')' && c != ']') (rem.drop s)
    have hdl : (rem.drop s).length = rem.length - s := List.length_drop _ _
    exact ⟨by simp only; omega, by simp only; omega⟩

theorem tryMatchNakedUrl_bound {rem : List Char} {t : Token}
    (h : tryMatchNakedUrl rem = some t) : 1 ≤ t.length ∧ t.length ≤ rem.length := by
  simp only [tryMatchNakedUrl] at h
  split at h
  · next hpre =>
    have hp : 8 ≤ rem.length := by simpa using isPrefixOf_length hpre
    exact nakedBody_bound (by omega) h
  · split at h
    · next hpre =>
      have hp : 7 ≤ rem.length := by simpa using isPrefixOf_length hpre
      exact nakedBody_bound (by omega) h
    · exact absurd h (by simp)

theorem tryMatchHighlight_bound {rem : List Char} {t : Token}
    (h : tryMatchHighlight rem = some t) : 1 ≤ t.length ∧ t.length ≤ rem.length := by
  simp only [tryMatchHighlight] at h
  split at h
  · next rest =>
    split at h
    · exact absurd h (by simp)
    · next hin =>
      split at h
      · next c1 c2 tl2 heq =>
        cases h
        have hnm := takeWhile_length_le (fun c => c != '=') rest
        have heqlen : (rest.drop ((rest.takeWhile (fun c => c != '=')).length)).length
            = tl2.length + 2 := by rw [heq]; simp
        have hdl : (rest.drop ((rest.takeWhile (fun c => c != '=')).length)).length
            = rest.length - ((rest.takeWhile (fun c => c != '=')).length) :=
          List.length_drop _ _
        refine ⟨by simp, ?_⟩
        simp only [List.length_cons]
        omega
      · exact absurd h (by simp)
  · exact absurd h (by simp)

theorem tryMatchBold_bound {rem : List Char} {t : Token}
    (h : tryMatchBold rem = some t) : 1 ≤ t.length ∧ t.length ≤ rem.length := by
  simp only [tryMatchBold] at h
  split at h
  · next rest =>
    split at h
    · exact absurd h (by simp)
    · next hin =>
      split at h
      · next c1 c2 tl2 heq =>
        cases h
        have hnm := takeWhile_length_le (fun c => c != '*') rest
        have heqlen : (rest.drop ((rest.takeWhile (fun c => c != '*')).length)).length
            = tl2.length + 2 := by rw [heq]; simp
        have hdl : (rest.drop ((rest.takeWhile (fun c => c != '*')).length)).length
            = rest.length - ((rest.takeWhile (fun c => c != '*')).length) :=
          List.length_drop _ _
        refine ⟨by simp, ?_⟩
        simp only [List.length_cons]
        omega
      · exact absurd h (by simp)
  · exact absurd h (by simp)

theorem tryMatchTag_bound {rem : List Char} {t : Token}
    (h : tryMatchTag rem = some t) : 1 ≤ t.length ∧ t.length ≤ rem.length := by
  simp only [tryMatchTag] at h
  split at h
  · next rest =>
    split at h
    · exact absurd h (by simp)
    · cases h
      have hnm := takeWhile_length_le isTagChar rest
      refine ⟨by simp, ?_⟩
      simp only [List.length_cons]
      omega
  · exact absurd h (by simp)

theorem mergeUrlIdx_lt {u ns : Option Nat} {n : Nat}
    (hu : ∀ x, u = some x → x < n) (hns : ∀ x, ns = some x → x < n) :
    ∀ x, mergeUrlIdx u ns = some x → x < n := by
  intro x hx
  rcases u with _ | a <;> rcases ns with _ | b <;> simp only [mergeUrlIdx] at hx
  · exact absurd hx (by simp)
  · cases hx; exact hns _ rfl
  · cases hx; exact hu _ rfl
  · split at hx
    · cases hx; exact hu _ rfl
    · cases hx; exact hns _ rfl

theorem mergeNlBq_lt {j ns : Option Nat} {n : Nat}
    (hj : ∀ x, j = some x → x + 1 < n) (hns : ∀ x, ns = some x → x < n) :
    ∀ x, mergeNlBq j ns = some x → x < n := by
  intro x hx
  rcases j with _ | a <;> rcases ns with _ | b <;> simp only [mergeNlBq] at hx
  · exact absurd hx (by simp)
  · cases hx; exact hns _ rfl
  · cases hx; exact hj _ rfl
  · split at hx
    · cases hx; exact hj _ rfl
    · cases hx; exact hns _ rfl

theorem matchText_bound {atStart : Bool} {rem : List Char}
    (hne : rem ≠ [])
    (hbq : ¬(atStart = true ∧ rem.head? = some '>')) :
    1 ≤ (matchText atStart rem).length ∧ (matchText atStart rem).length ≤ rem.length := by
  have hlen : 1 ≤ rem.length := by
    cases rem with
    | nil => exact absurd rfl hne
    | cons a tl => simp
  simp only [matchText]
  split
  · split
    · refine ⟨?_, ?_⟩ <;> dsimp only <;> omega
    · next i hfound =>
      have := findCharIdx_bound hfound
      refine ⟨?_, ?_⟩ <;> dsimp only <;> omega
  · split
    · next hhd =>
      simp only [Bool.and_eq_true, beq_iff_eq] at hhd
      exact absurd ⟨hhd.1, hhd.2⟩ hbq
    · split
      · refine ⟨?_, ?_⟩ <;> dsimp only <;> omega
      · next i hns2 =>
        have hi : i < rem.length := by
          refine mergeNlBq_lt ?_ ?_ i hns2
          · intro x hx
            have := findSubIdx_bound (by simp) hx
            simp only [String.data] at this
            simp at this
            omega
          · intro x hx
            exact mergeUrlIdx_lt (fun y hy => findUrlIdx_bound hy)
              (fun y hy => findCharIdx_bound hy) x hx
        refine ⟨?_, ?_⟩ <;> dsimp only <;> omega

theorem firstSomeTok_mem {l : List (Option Token)} {t : Token}
    (h : firstSomeTok l = some t) : some t ∈ l := by
  induction l with
  | nil => simp [firstSomeTok] at h
  | cons a rest ih =>
    match a, h with
    | some u, h => simp only [firstSomeTok] at h; cases h; simp
    | none, h =>
      simp only [firstSomeTok] at h
      exact List.mem_cons_of_mem _ (ih h)

theorem firstSomeTok_none {l : List (Option Token)}
    (h : firstSomeTok l = none) : ∀ x ∈ l, x = none := by
  induction l with
  | nil => simp
  | cons a rest ih =>
    match a, h with
    | some u, h => simp [firstSomeTok] at h
    | none, h =>
      simp only [firstSomeTok] at h
      intro x hx
      rcases List.mem_cons.mp hx with rfl | hx
      · rfl
      · exact ih h x hx

theorem nextToken_bound (atStart : Bool) {rem : List Char} (hne : rem ≠ []) :
    1 ≤ (nextToken atStart rem).length ∧ (nextToken atStart rem).length ≤ rem.length := by
  unfold nextToken
  cases hf : firstSomeTok (matchers atStart rem) with
  | some t =>
    simp only [Option.getD_some]
    have hmem := firstSomeTok_mem hf
    simp only [matchers, List.mem_cons, List.not_mem_nil, or_false] at hmem
    rcases hmem with h | h | h | h | h | h | h | h | h | h | h
    · exact tryMatchCodeBlock_bound h.symm
    · exact tryMatchQuery_bound h.symm
    · exact tryMatchTaskMarker_bound h.symm
    · exact tryMatchBlockquote_bound h.symm
    · exact tryMatchImage_bound h.symm
    · exact tryMatchMarkdownLink_bound h.symm
    · exact tryMatchBlockRef_bound h.symm
    · exact tryMatchNakedUrl_bound h.symm
    · exact tryMatchHighlight_bound h.symm
    · exact tryMatchBold_bound h.symm
    · exact tryMatchTag_bound h.symm
  | none =>
    simp only [Option.getD_none]
    have hall := firstSomeTok_none hf
    have hbqnone : tryMatchBlockquote atStart rem = none := by
      apply hall
      simp [matchers]
    refine matchText_bound hne ?_
    rintro ⟨rfl, hhd⟩
    have := tryMatchBlockquote_complete hhd
    rw [hbqnone] at this
    simp at this

theorem parseAux_sum : ∀ (fuel : Nat) (atStart : Bool) (rem : List Char),
    rem.length ≤ fuel →
    ((parseAux fuel atStart rem).map Token.length).sum = rem.length := by
  intro fuel
  induction fuel with
  | zero =>
    intro a rem h
    have : rem = [] := by
      cases rem with
      | nil => rfl
      | cons c tl => simp at h
    subst this
    simp [parseAux]
  | succ f ih =>
    intro a rem h
    cases rem with
    | nil => simp [parseAux]
    | cons c tl =>
      have hb := nextToken_bound a (show (c :: tl : List Char) ≠ [] by simp)
      simp only [parseAux, List.map_cons, List.sum_cons]
      rw [ih]
      · have hdl : ((c :: tl).drop (nextToken a (c :: tl)).length).length
            = (c :: tl).length - (nextToken a (c :: tl)).length :=
          List.length_drop _ _
        simp only [List.length_cons] at hdl hb ⊢
        omega
      · have hdl : ((c :: tl).drop (nextToken a (c :: tl)).length).length
            = (c :: tl).length - (nextToken a (c :: tl)).length :=
          List.length_drop _ _
        simp only [List.length_cons] at hdl hb h ⊢
        omega

theorem parseAux_pos : ∀ (fuel : Nat) (atStart : Bool) (rem : List Char),
    ∀ t ∈ parseAux fuel atStart rem, 1 ≤ t.length := by
  intro fuel
  induction fuel with
  | zero => intro a rem t ht; simp [parseAux] at ht
  | succ f ih =>
    intro a rem t ht
    cases rem with
    | nil => simp [parseAux] at ht
    | cons c tl =>
      simp only [parseAux, List.mem_cons] at ht
      rcases ht with rfl | ht
      · exact (nextToken_bound a (show (c :: tl : List Char) ≠ [] by simp)).1
      · exact ih _ _ _ ht

theorem parseAux_count : ∀ (fuel : Nat) (atStart : Bool) (rem : List Char),
    (parseAux fuel atStart rem).length ≤ rem.length := by
  intro fuel
  induction fuel with
  | zero => intro a rem; simp [parseAux]
  | succ f ih =>
    intro a rem
    cases rem with
    | nil => simp [parseAux]
    | cons c tl =>
      have hb := nextToken_bound a (show (c :: tl : List Char) ≠ [] by simp)
      simp only [parseAux, List.length_cons]
      have hrec := ih (if (nextToken a (c :: tl)).length == 0 then a
        else ((c :: tl).take (nextToken a (c :: tl)).length).getLastD ' ' == '\n')
        ((c :: tl).drop (nextToken a (c :: tl)).length)
      have hdl : ((c :: tl).drop (nextToken a (c :: tl)).length).length
          = (c :: tl).length - (nextToken a (c :: tl)).length :=
        List.length_drop _ _
      simp only [List.length_cons] at hdl hb hrec ⊢
      omega

/-- Claim C3: for every content string C, the tokens returned by tokenize
cover C exactly: produced left to right by a scanner that advances by each
token's length, their spans are contiguous and non-overlapping in source
order, and the sum of the length field over all tokens equals the length
of C. -/
theorem tokenize_coverage (C : String) :
    ((tokenize C).map Token.length).sum = C.length := by
  show ((parseAux C.data.length true C.data).map Token.length).sum = C.length
  rw [parseAux_sum C.data.length true C.data le_rfl]
  rfl

/-- Claim C4: tokenize is total and terminating (it is a total function of
fuel-bounded recursion, the fuel never runs out), every produced token has
length at least one, and the token sequence is finite with at most one
token per source character. -/
theorem tokenize_progress (C : String) :
    ((tokenize C).all fun t => decide (1 ≤ t.length)) = true ∧
    (tokenize C).length ≤ C.length := by
  constructor
  · simp only [List.all_eq_true, decide_eq_true_eq]
    intro t ht
    exact parseAux_pos _ _ _ t ht
  · show (parseAux C.data.length true C.data).length ≤ C.length
    exact parseAux_count C.data.length true C.data

theorem replaceAllChar_append (c : Char) (rep : List Char) (a b : List Char) :
    replaceAllChar c rep (a ++ b) = replaceAllChar c rep a ++ replaceAllChar c rep b := by
  induction a with
  | nil => simp [replaceAllChar]
  | cons x xs ih => simp [replaceAllChar, ih]

theorem escapeHtml_append (a b : List Char) :
    escapeHtml (a ++ b) = escapeHtml a ++ escapeHtml b := by
  simp [escapeHtml, replaceAllChar_append]

theorem escapeHtml_single (c : Char) : escapeHtml [c] = escCharSpec c := by
  by_cases h1 : c = '&'
  · subst h1; rfl
  · by_cases h2 : c = '<'
    · subst h2; rfl
    · by_cases h3 : c = '>'
      · subst h3; rfl
      · by_cases h4 : c = quotC
        · subst h4; rfl
        · by_cases h5 : c = aposC
          · subst h5; rfl
          · simp [escapeHtml, escCharSpec, replaceAllChar, h1, h2, h3, h4, h5]

theorem escapeHtml_eq_spec (t : List Char) : escapeHtml t = escapeHtmlSpec t := by
  induction t with
  | nil => rfl
  | cons c l ih =>
    have : (c :: l) = [c] ++ l := rfl
    rw [this, escapeHtml_append, escapeHtml_single, ih]
    rfl

/-- Claim C9: every literal text reaching the hypertext output — the value
of each text-bearing token and every rendered property key and value — has
the five characters escaped to their HTML entities before being placed in
the output: the generator and the property renderer agree with their
claim-side variants in which the pointwise entity replacement
`escapeHtmlSpec` is applied to every text field. -/
theorem html_escaping :
    (∀ t : Token, htmlGenToken t = htmlGenTokenSpec t) ∧
    (∀ props : List (List Char × Option (List Char)),
      htmlConvertProps props = htmlConvertPropsSpec props) := by
  constructor
  · intro t
    cases ht : t.type <;>
      simp [htmlGenToken, htmlGenTokenSpec, ht, htmlGenLink, htmlGenLinkSpec,
        htmlGenImage, htmlGenImageSpec, htmlGenVideo, htmlGenVideoSpec,
        htmlGenCodeBlock, htmlGenCodeBlockSpec, escapeHtml_eq_spec]
  · intro props
    simp only [htmlConvertProps, htmlConvertPropsSpec]
    have aux : ∀ ps : List (List Char × Option (List Char)),
        listJoinMap (fun (p : List Char × Option (List Char)) =>
          match p.2 with
          | some v =>
            ("<li><strong>").data ++ escapeHtml p.1 ++ ("</strong>: ").data ++
            escapeHtml v ++ ("</li>").data
          | none => []) ps
        = listJoinMap (fun (p : List Char × Option (List Char)) =>
          match p.2 with
          | some v =>
            ("<li><strong>").data ++ escapeHtmlSpec p.1 ++ ("</strong>: ").data ++
            escapeHtmlSpec v ++ ("</li>").data
          | none => []) ps := by
      intro ps
      induction ps with
      | nil => rfl
      | cons p ps ih =>
        simp only [listJoinMap]
        rw [ih]
        rcases p with ⟨k, _ | v⟩
        · rfl
        · simp [escapeHtml_eq_spec]
    rw [aux]

/-- Claim C7: repeated technical-document conversions do not interfere:
the result of AsciiDocConverter.convertBlock does not depend on the value
the static depth-offset field holds on entry (the method resets it first),
so a second successive call returns the same result as the first. -/
theorem adoc_state_isolation (s0 s0' : Option Int) (b : Block) (o : ExportOptions) :
    (adocConvertS s0 b o).1 = (adocConvertS s0' b o).1 ∧
    (adocConvertS ((adocConvertS s0 b o).2) b o).1 = (adocConvertS s0 b o).1 :=
  ⟨rfl, rfl⟩

mutual
theorem countBlocks_eq (b : Block) (o : ExportOptions) :
    countBlocks b o = if o.includeChildren then treeSize b else 1 := by
  cases b with
  | node c p cs =>
    rw [countBlocks]
    cases h : o.includeChildren with
    | false => simp [h]
    | true => simp [h, treeSize, countBlocksList_eq cs o h]
termination_by sizeOf b

theorem countBlocksList_eq (cs : List Block) (o : ExportOptions)
    (h : o.includeChildren = true) :
    countBlocksList cs o = treeSizeList cs := by
  cases cs with
  | nil => rfl
  | cons c rest =>
    rw [countBlocksList, treeSizeList, countBlocks_eq c o,
      countBlocksList_eq rest o h, h]
    simp
termination_by sizeOf cs
end

/-- Claim C8: blockCount equals the number of blocks reachable along
children edges when includeChildren is set, and one otherwise, for all
three converters and independently of maxDepth; on the three-level example
with maxDepth one the count is three even though the rendered content
omits the third block. -/
theorem blockcount_full_traversal :
    (∀ (b : Block) (o : ExportOptions),
      (mdConvert b o).blockCount = (if o.includeChildren then treeSize b else 1) ∧
      (htmlConvert b o).blockCount = (if o.includeChildren then treeSize b else 1) ∧
      (adocConvert b o).blockCount = (if o.includeChildren then treeSize b else 1)) ∧
    ((mdConvert exTree3 exOptsD1).blockCount = 3 ∧
      containsSub (("Level 2").data) (mdConvert exTree3 exOptsD1).content = false) := by
  constructor
  · intro b o
    refine ⟨?_, ?_, ?_⟩ <;>
      simp [mdConvert, htmlConvert, adocConvert, adocConvertS, countBlocks_eq]
  · simp only [mdConvert, exTree3, exOptsD1, mdProcessBlock, mdProcessChildren]
    constructor
    · decide
    · decide

mutual
theorem mdProcessBlock_congr (b : Block) (d : Nat) (o o' : ExportOptions)
    (hc : o.includeChildren = o'.includeChildren)
    (hp : o.includeProperties = o'.includeProperties)
    (hg : ∀ n : Nat, depthCut o n = depthCut o' n) :
    mdProcessBlock b d o = mdProcessBlock b d o' := by
  cases b with
  | node c p cs =>
    rw [mdProcessBlock, mdProcessBlock, hg d, hc, hp]
    cases hcut : depthCut o' d with
    | true => rfl
    | false =>
      simp only [if_false, Bool.false_eq_true]
      rw [mdProcessChildren_congr cs (d + 1) o o' hc hp hg]
termination_by sizeOf b

theorem mdProcessChildren_congr (cs : List Block) (d : Nat) (o o' : ExportOptions)
    (hc : o.includeChildren = o'.includeChildren)
    (hp : o.includeProperties = o'.includeProperties)
    (hg : ∀ n : Nat, depthCut o n = depthCut o' n) :
    mdProcessChildren cs d o = mdProcessChildren cs d o' := by
  cases cs with
  | nil => rw [mdProcessChildren, mdProcessChildren]
  | cons c rest =>
    rw [mdProcessChildren, mdProcessChildren,
      mdProcessBlock_congr c d o o' hc hp hg,
      mdProcessChildren_congr rest d o o' hc hp hg]
termination_by sizeOf cs
end

mutual
theorem htmlListItem_congr (b : Block) (o o' : ExportOptions)
    (hc : o.includeChildren = o'.includeChildren)
    (hp : o.includeProperties = o'.includeProperties) :
    htmlListItem b o = htmlListItem b o' := by
  cases b with
  | node c p cs =>
    rw [htmlListItem, htmlListItem, hc, hp, htmlListItems_congr cs o o' hc hp]
termination_by sizeOf b

theorem htmlListItems_congr (cs : List Block) (o o' : ExportOptions)
    (hc : o.includeChildren = o'.includeChildren)
    (hp : o.includeProperties = o'.includeProperties) :
    htmlListItems cs o = htmlListItems cs o' := by
  cases cs with
  | nil => rw [htmlListItems, htmlListItems]
  | cons c rest =>
    rw [htmlListItems, htmlListItems, htmlListItem_congr c o o' hc hp,
      htmlListItems_congr rest o o' hc hp]
termination_by sizeOf cs
end

/-- Claim C2 (amended): for zero or negative maxDepth no conversion
crashes (all converters are total functions); a zero maxDepth disables the
depth guard entirely, so conversion behaves exactly as with no maxDepth
and all descendants are rendered, while a negative maxDepth cuts at the
root, so the content is empty and not even the root's content appears;
blockCount is computed either way. -/
theorem maxdepth_nonpositive (b : Block) (o : ExportOptions) :
    (o.maxDepth = some 0 →
      mdConvert b o = mdConvert b { o with maxDepth := none } ∧
      htmlConvert b o = htmlConvert b { o with maxDepth := none }) ∧
    (∀ m : Int, o.maxDepth = some m → m < 0 →
      (mdConvert b o).content = [] ∧ (htmlConvert b o).content = []) := by
  constructor
  · intro h0
    have hg : ∀ n : Nat, depthCut o n = depthCut { o with maxDepth := none } n := by
      intro n
      simp [depthCut, h0]
    have hcount : countBlocks b o = countBlocks b { o with maxDepth := none } := by
      rw [countBlocks_eq, countBlocks_eq]
    constructor
    · have h1 : mdProcessBlock b 0 o = mdProcessBlock b 0 { o with maxDepth := none } :=
        mdProcessBlock_congr b 0 o _ rfl rfl hg
      simp [mdConvert, h1, hcount]
    · have h2 : htmlGenerateHtml b 0 o = htmlGenerateHtml b 0 { o with maxDepth := none } := by
        cases b with
        | node c p cs =>
          simp only [htmlGenerateHtml, hg 0, Block.children, Block.props, Block.content]
          rw [htmlListItems_congr cs o { o with maxDepth := none } rfl rfl]
      simp [htmlConvert, h2, hcount]
  · intro m hm hneg
    have hcut : depthCut o 0 = true := by
      simp only [depthCut, hm]
      simp
      omega
    constructor
    · cases b with
      | node c p cs =>
        rw [mdConvert]
        simp only [mdProcessBlock, hcut]
        rfl
    · rw [htmlConvert]
      simp only [htmlGenerateHtml, hcut]
      simp

/-- Claim C2 counterexample: with maxDepth zero the guard is disabled, so
the markdown conversion of Root with child Child renders the descendant —
the content contains Child, contradicting the claim that zero maxDepth
excludes everything below the root. -/
theorem maxdepth_zero_renders_children :
    containsSub (("Child").data) (mdConvert exTree2 exOpts0).content = true := by
  simp only [mdConvert, exTree2, exOpts0, mdProcessBlock, mdProcessChildren]
  decide

/-- Witness for the amended claim C2 at a concrete tree and options. -/
theorem maxdepth_nonpositive_witness :
    (mdConvert exTree2 exOpts0 = mdConvert exTree2 { exOpts0 with maxDepth := none } ∧
      htmlConvert exTree2 exOpts0 = htmlConvert exTree2 { exOpts0 with maxDepth := none }) ∧
    ((mdConvert exTree2 exOptsNeg).content = [] ∧
      (htmlConvert exTree2 exOptsNeg).content = []) :=
  ⟨(maxdepth_nonpositive exTree2 exOpts0).1 rfl,
   (maxdepth_nonpositive exTree2 exOptsNeg).2 (-1) rfl (by decide)⟩

/-- Claim C10: in the plain-markup and technical-document converters a
block whose content is empty or whitespace-only pushes no line of its own
(with no properties being rendered) while its children are still visited
and rendered, and the depth-offset state is passed through untouched; such
a block is still counted, so a root with a single whitespace-only child
has blockCount two while the content only shows the root. -/
theorem blank_blocks :
    (∀ (bl : Block) (d : Nat) (o : ExportOptions) (s : Option Int),
      o.includeProperties = false → jsTrim bl.content = [] →
      mdProcessBlock bl d o =
        (if depthCut o d then []
         else if o.includeChildren && !bl.children.isEmpty then
           mdProcessChildren bl.children (d + 1) o
         else []) ∧
      adocProcessBlock bl d o s =
        (if depthCut o d then ([], s)
         else if o.includeChildren && !bl.children.isEmpty then
           adocProcessChildren bl.children (d + 1) o s
         else ([], s))) ∧
    ((mdConvert exTreeWs exOpts10).blockCount = 2 ∧
     (mdConvert exTreeWs exOpts10).content = ("Root").data ∧
     (adocConvert exTreeWs exOpts10).blockCount = 2 ∧
     (adocConvert exTreeWs exOpts10).content = ("Root").data) := by
  constructor
  · intro bl d o s hp htrim
    cases bl with
    | node c p cs =>
      simp only [Block.content] at htrim
      constructor
      · rw [mdProcessBlock]
        have hcc : mdConvertBlockContent c d = [] := by
          simp [mdConvertBlockContent, htrim]
        simp [hcc, hp, Block.children, show jsTrim ([] : List Char) = [] from rfl]
      · rw [adocProcessBlock]
        have hcc : adocConvertBlockContent c d s = ([], s) := by
          simp [adocConvertBlockContent, htrim]
        simp [hcc, hp, Block.children, Prod.mk.eta,
          show jsTrim ([] : List Char) = [] from rfl]
  · simp only [mdConvert, adocConvert, adocConvertS, exTreeWs, exOpts10,
      mdProcessBlock, mdProcessChildren, adocProcessBlock, adocProcessChildren]
    refine ⟨by decide, by decide, by decide, by decide⟩

/-- Witness for the whitespace-only claim C10: the whitespace-only leaf
pushes no line at all. -/
theorem blank_blocks_witness :
    mdProcessBlock (Block.node (("   ").data) [] []) 1 exOpts10 = [] := by
  have h := (blank_blocks.1 (Block.node (("   ").data) [] []) 1 exOpts10 none
    rfl (by decide)).1
  rw [h]
  decide

/-- Claim C1 evaluated at the failing input: with maxDepth one on the
three-level tree, plain-markup and technical-document contents contain
Level 0 and Level 1 and not Level 2; the hypertext converter, whose list
items never re-check maxDepth, renders Level 2 as well, contradicting the
claim and the spec for the hypertext format. -/
theorem maxdepth_html_divergence :
    containsSub (("Level 0").data) (mdConvert exTree3 exOptsD1).content = true ∧
    containsSub (("Level 1").data) (mdConvert exTree3 exOptsD1).content = true ∧
    containsSub (("Level 2").data) (mdConvert exTree3 exOptsD1).content = false ∧
    containsSub (("Level 0").data) (adocConvert exTree3 exOptsD1).content = true ∧
    containsSub (("Level 1").data) (adocConvert exTree3 exOptsD1).content = true ∧
    containsSub (("Level 2").data) (adocConvert exTree3 exOptsD1).content = false ∧
    containsSub (("Level 0").data) (htmlConvert exTree3 exOptsD1).content = true ∧
    containsSub (("Level 1").data) (htmlConvert exTree3 exOptsD1).content = true ∧
    containsSub (("Level 2").data) (htmlConvert exTree3 exOptsD1).content = true := by
  simp only [mdConvert, adocConvert, adocConvertS, htmlConvert, htmlGenerateHtml,
    mdProcessBlock, mdProcessChildren, adocProcessBlock, adocProcessChildren,
    htmlListItem, htmlListItems, Block.content, Block.props, Block.children,
    exTree3, exOptsD1]
  refine ⟨by decide, by decide, by decide, by decide, by decide, by decide,
    by decide, by decide, by decide⟩

/-- Claim C5: the technical-document conversion of Root, TODO child, DONE
grandchild has exactly three lines with list markers none, one star and
two stars; the star embedded in the rendered task-marker token is replaced
by the computed marker rather than prefixed, so no doubled marker appears. -/
theorem adoc_task_markers :
    (adocConvert exTreeTask exOptsNone).content =
      ("Root\n* [ ] child\n** [x] grandchild").data ∧
    splitNl (adocConvert exTreeTask exOptsNone).content =
      [("Root").data, ("* [ ] child").data, ("** [x] grandchild").data] ∧
    containsSub (("** *").data) (adocConvert exTreeTask exOptsNone).content = false := by
  simp only [adocConvert, adocConvertS, adocProcessBlock, adocProcessChildren,
    exTreeTask, exOptsNone]
  refine ⟨by decide, by decide, by decide⟩

/-- Claim C6: the technical-document blockquote renderer first tries the
anchored quoted pattern and renders the three-line attributed form with
the captured quote and author; otherwise, when the looser dash pattern
matches and the trimmed right part is shorter than fifty characters and
strictly shorter than the trimmed left part, it renders the attributed
form with the trimmed parts; in every other case the text is wrapped in
straight double quotes with no attribution. -/
theorem blockquote_heuristic (q : List Char) :
    (∀ quote author, matchQuoteAuthor q = some (quote, author) →
      adocGenBlockquote q =
        ("\n\"").data ++ quote ++ ("\"\n-- ").data ++ author ++ ("\n").data) ∧
    (matchQuoteAuthor q = none → ∀ l r, matchSimpleQuote q = some (l, r) →
      (((jsTrim r).length < 50 ∧ (jsTrim l).length > (jsTrim r).length) →
        adocGenBlockquote q =
          ("\n\"").data ++ jsTrim l ++ ("\"\n-- ").data ++ jsTrim r ++ ("\n").data) ∧
      (¬((jsTrim r).length < 50 ∧ (jsTrim l).length > (jsTrim r).length) →
        adocGenBlockquote q = ("\"").data ++ q ++ ("\"").data)) ∧
    (matchQuoteAuthor q = none → matchSimpleQuote q = none →
      adocGenBlockquote q = ("\"").data ++ q ++ ("\"").data) := by
  refine ⟨?_, ?_, ?_⟩
  · intro quote author hqa
    simp [adocGenBlockquote, hqa]
  · intro hqa l r hsq
    constructor
    · intro hcond
      simp only [adocGenBlockquote, hqa, hsq]
      rw [if_pos hcond]
    · intro hcond
      simp only [adocGenBlockquote, hqa, hsq]
      rw [if_neg hcond]
  · intro hqa hsq
    simp [adocGenBlockquote, hqa, hsq]

/-- Witness for the blockquote-heuristic claim C6 on a concrete attributed
quote. -/
theorem blockquote_heuristic_witness :
    adocGenBlockquote (("\"Be yourself\" - Oscar Wilde").data) =
      ("\n\"Be yourself\"\n-- Oscar Wilde\n").data := by
  have h := (blockquote_heuristic (("\"Be yourself\" - Oscar Wilde").data)).1
    (("Be yourself").data) (("Oscar Wilde").data) (by decide)
  rw [h]
  decide
